import Mathlib

/-!
# One-time-pad cipher messenger: cipher engine, session and requester

A shallow embedding of `enc_server.c`, `dec_server.c` and `enc_client.c`.

Conventions of the embedding
* a byte of memory or of the wire is a `Nat` below 256; a buffer is a `List Nat`
  holding every cell of the allocation (terminator included);
* `char` is the signed 8-bit type of the target (`char_val` reads a byte through it,
  `to_char` stores an `int` into it);
* `int` is a 32-bit two's-complement integer, carried as an `Int`;
* an access outside a buffer, or a signed overflow, has no defined behaviour in C:
  the embedding reports it (`Ret.undefined`, `Event.undefined`) instead of
  inventing a result.
-/

namespace OtpCipher

/-! ## C library and language primitives -/

/-- Largest value of `int`. -/
def INT_MAX : Int := 2147483647

/-- Value of a byte read through `char`. -/
def char_val (b : Nat) : Int := if b < 128 then (b : Int) else (b : Int) - 256

/-- Byte stored when an `int` is assigned to a `char`. -/
def to_char (x : Int) : Nat := (x % 256).toNat

/-- Classification `isspace` of `<ctype.h>` in the C locale:
space, `\t`, `\n`, `\v`, `\f`, `\r`. -/
def isspace (c : Int) : Bool := decide (c = 32 ∨ (9 ≤ c ∧ c ≤ 13))

/-- Classification `isupper` of `<ctype.h>` in the C locale: `'A'`..`'Z'`. -/
def isupper (c : Int) : Bool := decide (65 ≤ c ∧ c ≤ 90)

/-- Conversion of an `int` to `size_t` (64 bits). -/
def size_t_of_int (x : Int) : Nat := (x % 18446744073709551616).toNat

/-- Length `strlen` of the C string starting a buffer: the index of its first NUL
byte; `none` when the buffer holds no NUL (the scan would leave the buffer). -/
def strlen : List Nat → Option Nat
  | [] => none
  | b :: rest => if b = 0 then some 0 else (strlen rest).map (· + 1)

/-- The bytes of the C string starting a buffer (those before the first NUL). -/
def c_str (buf : List Nat) : List Nat := buf.takeWhile (fun b => b != 0)

/-- Outcome of a function returning a pointer to a buffer. -/
inductive Ret where
  /-- the function returned `NULL` -/
  | null : Ret
  /-- the function returned a pointer to a buffer with these cells -/
  | ptr (buf : List Nat) : Ret
  /-- the call ran into undefined behaviour -/
  | undefined : Ret
  deriving DecidableEq

/-! ## Cipher engine (`encrypt_msg`, `decrypt_msg`) -/

/-- The `for` loop of `encrypt_msg` (enc_server.c:267-293), started at index `i` with
the output buffer `cipher_msg`. `none` when `message[i]`, `key_seq[i]` or
`cipher_msg[i]` lies outside its buffer. The first argument bounds the number of
iterations; `message.length + 1` is never used up, since the loop has left on a NUL
or left the buffer before. -/
def encrypt_loop (message key_seq : List Nat) : Nat → Nat → List Nat → Option (List Nat)
  | 0, _, _ => none
  | fuel + 1, i, cipher_msg =>
    match message[i]? with
    | none => none
    | some msg_byte =>
      if msg_byte = 0 then some cipher_msg
      else
        let msg_char := char_val msg_byte
        let msg_val : Int := if isspace msg_char then 26 else msg_char - 65
        match key_seq[i]? with
        | none => none
        | some key_byte =>
          let key_char := char_val key_byte
          let key_val : Int := if isspace key_char then 26 else key_char - 65
          let cipher_val : Int := msg_val + key_val
          let cipher_val : Int := if cipher_val > 26 then cipher_val - 27 else cipher_val
          let cipher_char : Nat := if cipher_val = 26 then 32 else to_char (65 + cipher_val)
          if i < cipher_msg.length then
            encrypt_loop message key_seq fuel (i + 1) (cipher_msg.set i cipher_char)
          else none

/-- Function `encrypt_msg` (enc_server.c:254-296). `calloc_ok n` tells whether an
allocation of `n` bytes succeeds. -/
def encrypt_msg (calloc_ok : Nat → Bool) (message : List Nat) (message_len : Int)
    (key_seq : List Nat) : Ret :=
  if message_len + 1 > INT_MAX then Ret.undefined
  else if !calloc_ok (size_t_of_int (message_len + 1)) then Ret.null
  else
    let cipher_msg := List.replicate (size_t_of_int (message_len + 1)) 0
    match encrypt_loop message key_seq (message.length + 1) 0 cipher_msg with
    | none => Ret.undefined
    | some cipher_msg =>
      if 0 ≤ message_len ∧ message_len.toNat < cipher_msg.length then
        Ret.ptr (cipher_msg.set message_len.toNat 0)
      else Ret.undefined

/-- The `for` loop of `decrypt_msg` (dec_server.c:266-292), as `encrypt_loop`. -/
def decrypt_loop (cipher key_seq : List Nat) : Nat → Nat → List Nat → Option (List Nat)
  | 0, _, _ => none
  | fuel + 1, i, message =>
    match cipher[i]? with
    | none => none
    | some cipher_byte =>
      if cipher_byte = 0 then some message
      else
        let cipher_char := char_val cipher_byte
        let cipher_val : Int := if isspace cipher_char then 26 else cipher_char - 65
        match key_seq[i]? with
        | none => none
        | some key_byte =>
          let key_char := char_val key_byte
          let key_val : Int := if isspace key_char then 26 else key_char - 65
          let msg_val : Int := cipher_val - key_val
          let msg_val : Int := if msg_val < 0 then msg_val + 27 else msg_val
          let msg_char : Nat := if msg_val = 26 then 32 else to_char (65 + msg_val)
          if i < message.length then
            decrypt_loop cipher key_seq fuel (i + 1) (message.set i msg_char)
          else none

/-- Function `decrypt_msg` (dec_server.c:254-295). -/
def decrypt_msg (calloc_ok : Nat → Bool) (cipher : List Nat) (cipher_len : Int)
    (key_seq : List Nat) : Ret :=
  if cipher_len + 1 > INT_MAX then Ret.undefined
  else if !calloc_ok (size_t_of_int (cipher_len + 1)) then Ret.null
  else
    let message := List.replicate (size_t_of_int (cipher_len + 1)) 0
    match decrypt_loop cipher key_seq (cipher.length + 1) 0 message with
    | none => Ret.undefined
    | some message =>
      if 0 ≤ cipher_len ∧ cipher_len.toNat < message.length then
        Ret.ptr (message.set cipher_len.toNat 0)
      else Ret.undefined

/-- Membership of a byte in Alphabet-27: an uppercase letter or the space. -/
def alphabet27 (b : Nat) : Prop := b = 32 ∨ (65 ≤ b ∧ b ≤ 90)

instance (b : Nat) : Decidable (alphabet27 b) := by unfold alphabet27; infer_instance

/-- The buffer holding the C string `s`: its bytes followed by the terminator. -/
def c_buf (s : List Nat) : List Nat := s ++ [0]

/-- One iteration of the loop of `encrypt_msg` on the bytes `m = message[i]` and
`k = key_seq[i]`: the byte written to `cipher_msg[i]`. -/
def encrypt_byte (m k : Nat) : Nat :=
  let msg_val : Int := if isspace (char_val m) then 26 else char_val m - 65
  let key_val : Int := if isspace (char_val k) then 26 else char_val k - 65
  let cipher_val : Int := msg_val + key_val
  let cipher_val : Int := if cipher_val > 26 then cipher_val - 27 else cipher_val
  if cipher_val = 26 then 32 else to_char (65 + cipher_val)

/-- One iteration of the loop of `decrypt_msg` on the bytes `c = cipher[i]` and
`k = key_seq[i]`: the byte written to `message[i]`. -/
def decrypt_byte (c k : Nat) : Nat :=
  let cipher_val : Int := if isspace (char_val c) then 26 else char_val c - 65
  let key_val : Int := if isspace (char_val k) then 26 else char_val k - 65
  let msg_val : Int := cipher_val - key_val
  let msg_val : Int := if msg_val < 0 then msg_val + 27 else msg_val
  if msg_val = 26 then 32 else to_char (65 + msg_val)

/-! ### The reference cipher, in the words of the specification -/

/-- Symbol value of the specification: space is 26, a letter its 0-based position in
the alphabet. -/
def val (b : Nat) : Nat := if b = 32 then 26 else b - 65

/-- Symbol of a value, as the specification maps results back: 26 is the space, any
other value the letter at that position. -/
def sym (v : Nat) : Nat := if v = 26 then 32 else 65 + v

/-- Reference encoding of one symbol: addition modulo 27. -/
def encode_ref (m k : Nat) : Nat := sym ((val m + val k) % 27)

/-- Reference decoding of one symbol: subtraction modulo 27. -/
def decode_ref (c k : Nat) : Nat := sym ((((val c : Int) - (val k : Int)) % 27).toNat)

/-! ## Connection and process environment -/

/-- What the connection holds for one call of `recv`. -/
inductive RecvItem where
  /-- the call fails: `recv` returns -1 -/
  | error : RecvItem
  /-- these bytes have arrived; with no byte the peer has closed and `recv` returns 0 -/
  | data (bytes : List Nat) : RecvItem
  deriving DecidableEq

/-- Call `recv(fd, buf, len, 0)`: the value returned, the bytes stored from `buf` on,
and the connection afterwards. At most `len` of the bytes that have arrived are
taken, the others stay for the next call. A connection with nothing left has been
closed by the peer: `recv` returns 0. -/
def recv (sock : List RecvItem) (len : Nat) : Int × List Nat × List RecvItem :=
  match sock with
  | [] => (0, [], [])
  | RecvItem.error :: rest => (-1, [], rest)
  | RecvItem.data bytes :: rest =>
    if bytes.length ≤ len then ((bytes.length : Int), bytes, rest)
    else ((len : Int), bytes.take len, RecvItem.data (bytes.drop len) :: rest)

/-- What the connection does with one call of `send`. -/
inductive SendItem where
  /-- the call fails: `send` returns -1 -/
  | error : SendItem
  /-- the connection takes at most `n` bytes of the call -/
  | accept (n : Nat) : SendItem
  deriving DecidableEq

/-- Call `send(fd, buf, len, 0)`: the value returned and the connection afterwards.
Once the list is used up every call takes all its bytes. -/
def send (out : List SendItem) (len : Nat) : Int × List SendItem :=
  match out with
  | [] => ((len : Int), [])
  | SendItem.error :: rest => (-1, rest)
  | SendItem.accept n :: rest => ((min n len : Nat), rest)

/-- Environment of one session process. -/
structure Env where
  /-- what the peer delivers to the successive calls of `recv` -/
  sock : List RecvItem
  /-- how the successive calls of `send` go -/
  out : List SendItem
  /-- whether `calloc` of that many bytes succeeds -/
  calloc_ok : Nat → Bool
  /-- the four bytes held by the uninitialised variable `nbo_key_len` -/
  nbo_key_len : List Nat
  /-- the four bytes held by the uninitialised variable `nbo_msg_len` -/
  nbo_msg_len : List Nat

/-- Observable step of a session process. -/
inductive Event where
  /-- call of `recv` asking for `len` bytes, which returned `ret` -/
  | recv (len : Nat) (ret : Int) : Event
  /-- call of `send` on these bytes, which returned `ret` -/
  | send (bytes : List Nat) (ret : Int) : Event
  /-- call of `encrypt_msg` (`decrypt_msg`) on these buffers -/
  | transform (message : List Nat) (message_len : Int) (key_seq : List Nat) : Event
  /-- call of `close` on the connection -/
  | close : Event
  /-- call of `exit` -/
  | exit (code : Nat) : Event
  /-- the process ran into undefined behaviour -/
  | undefined : Event
  deriving DecidableEq

/-- Bytes written at offset `off` of a buffer. -/
def store (buf : List Nat) (off : Nat) (bytes : List Nat) : List Nat :=
  buf.take off ++ bytes ++ buf.drop (off + bytes.length)

/-- Value `ntohl` of the 32-bit variable whose four bytes in memory are `b`. -/
def ntohl (b : List Nat) : Nat :=
  b.getD 0 0 * 16777216 + b.getD 1 0 * 65536 + b.getD 2 0 * 256 + b.getD 3 0

/-- Conversion of a `uint32_t` to `int`. -/
def int_of_uint32 (u : Nat) : Int :=
  if u < 2147483648 then (u : Int) else (u : Int) - 4294967296

/-- The reject tag, "reject". -/
def reject_tag : List Nat := [114, 101, 106, 101, 99, 116]

/-- What distinguishes the two servers. -/
structure Service where
  /-- array `permitted_code` -/
  permitted_code : List Nat
  /-- the accept tag sent on a match -/
  accept_tag : List Nat
  /-- the transform called on the payload -/
  transform : (Nat → Bool) → List Nat → Int → List Nat → Ret

/-- The encryption server: code "4321", tag "enc", `encrypt_msg`. -/
def enc_service : Service := ⟨[52, 51, 50, 49], [101, 110, 99], encrypt_msg⟩

/-- The decryption server: code "1234", tag "dec", `decrypt_msg`. -/
def dec_service : Service := ⟨[49, 50, 51, 52], [100, 101, 99], decrypt_msg⟩

/-! ## Server session (the child process of `main`, lines 79-217) -/

/-- The loops `while (total_read < key_len)` (lines 129-142) and
`while (total_read < msg_len)` (lines 165-180): the events of the loop, and the
buffer with the connection left when the loop is left normally (`none` when the
process has exited). The first argument bounds the number of iterations; every
iteration that goes on has read a byte, so `len + 1` is never used up. -/
def recv_body (len : Int) :
    Nat → List RecvItem → List Nat → Int → List Event × Option (List Nat × List RecvItem)
  | 0, _, _, _ => ([], none)
  | fuel + 1, sock, buf, total_read =>
    if total_read < len then
      match recv sock (len - total_read).toNat with
      | (bytes_read, bytes, sock) =>
        if bytes_read < 0 then
          ([Event.recv (len - total_read).toNat bytes_read, Event.close, Event.exit 1], none)
        else if bytes_read = 0 then
          ([Event.recv (len - total_read).toNat bytes_read, Event.close, Event.exit 1], none)
        else
          match recv_body len fuel sock (store buf total_read.toNat bytes)
              (total_read + bytes_read) with
          | (events, result) =>
            (Event.recv (len - total_read).toNat bytes_read :: events, result)
    else ([], some (buf, sock))

/-- The loop `while (total_written < cipher_len)` and the end of the session
(lines 193-217). The first argument bounds the number of iterations; every iteration
that goes on has written a byte, so `cipher_len + 1` is never used up. -/
def send_result (cipher : List Nat) (cipher_len : Nat) :
    Nat → List SendItem → Int → List Event
  | 0, _, _ => []
  | fuel + 1, out, total_written =>
    if total_written < (cipher_len : Int) then
      match send out ((cipher_len : Int) - total_written).toNat with
      | (bytes_written, out) =>
        let bytes := (cipher.drop total_written.toNat).take
          ((cipher_len : Int) - total_written).toNat
        if bytes_written < 0 then
          [Event.send bytes bytes_written, Event.close, Event.exit 1]
        else if bytes_written = 0 then
          [Event.send bytes bytes_written, Event.close, Event.exit 1]
        else
          Event.send bytes bytes_written
            :: send_result cipher cipher_len fuel out (total_written + bytes_written)
    else [Event.exit 0]

/-- Transform and response (lines 182-217), with the key and message buffers read. -/
def session_transform (svc : Service) (env : Env) (out : List SendItem)
    (key msg : List Nat) (msg_len : Int) : List Event :=
  match svc.transform env.calloc_ok msg msg_len key with
  | Ret.undefined => [Event.transform msg msg_len key, Event.undefined]
  | Ret.null => [Event.transform msg msg_len key, Event.close, Event.exit 1]
  | Ret.ptr cipher =>
    match strlen cipher with
    | none => [Event.transform msg msg_len key, Event.undefined]
    | some cipher_len =>
      Event.transform msg msg_len key :: send_result cipher cipher_len (cipher_len + 1) out 0

/-- Parts 4 and 5, the payload frame (lines 145-181), then the transform. -/
def session_payload (svc : Service) (env : Env) (sock : List RecvItem)
    (out : List SendItem) (key : List Nat) : List Event :=
  match recv sock 4 with
  | (bytes_read, bytes, sock) =>
    if bytes_read < 0 then [Event.recv 4 bytes_read, Event.close, Event.exit 1]
    else
      let nbo_msg_len := store env.nbo_msg_len 0 bytes
      let msg_len := int_of_uint32 (ntohl nbo_msg_len)
      if msg_len + 1 > INT_MAX then [Event.recv 4 bytes_read, Event.undefined]
      else if !env.calloc_ok (size_t_of_int (msg_len + 1)) then
        [Event.recv 4 bytes_read, Event.close, Event.exit 1]
      else
        let msg := List.replicate (size_t_of_int (msg_len + 1)) 0
        match recv_body msg_len (msg_len.toNat + 1) sock msg 0 with
        | (events, none) => Event.recv 4 bytes_read :: events
        | (events, some (msg, _)) =>
          if 0 ≤ msg_len ∧ msg_len.toNat < msg.length then
            Event.recv 4 bytes_read :: events
              ++ session_transform svc env out key (msg.set msg_len.toNat 0) msg_len
          else Event.recv 4 bytes_read :: events ++ [Event.undefined]

/-- Parts 2 and 3, the key frame (lines 110-144), then the payload frame. -/
def session_key (svc : Service) (env : Env) (sock : List RecvItem)
    (out : List SendItem) : List Event :=
  match recv sock 4 with
  | (bytes_read, bytes, sock) =>
    if bytes_read < 0 then [Event.recv 4 bytes_read, Event.close, Event.exit 1]
    else
      let nbo_key_len := store env.nbo_key_len 0 bytes
      let key_len := int_of_uint32 (ntohl nbo_key_len)
      if key_len + 1 > INT_MAX then [Event.recv 4 bytes_read, Event.undefined]
      else if !env.calloc_ok (size_t_of_int (key_len + 1)) then
        [Event.recv 4 bytes_read, Event.close, Event.exit 1]
      else
        let key := List.replicate (size_t_of_int (key_len + 1)) 0
        match recv_body key_len (key_len.toNat + 1) sock key 0 with
        | (events, none) => Event.recv 4 bytes_read :: events
        | (events, some (key, sock)) =>
          if 0 ≤ key_len ∧ key_len.toNat < key.length then
            Event.recv 4 bytes_read :: events
              ++ session_payload svc env sock out (key.set key_len.toNat 0)
          else Event.recv 4 bytes_read :: events ++ [Event.undefined]

/-- The session: the child process forked by `main` for one accepted connection
(lines 79-217), from Part 1, the client code. -/
def server_session (svc : Service) (env : Env) : List Event :=
  let client_code := List.replicate 10 0
  match recv env.sock 9 with
  | (bytes_read, bytes, sock) =>
    if bytes_read < 0 then [Event.recv 9 bytes_read, Event.close, Event.exit 1]
    else
      let client_code := (store client_code 0 bytes).set bytes_read.toNat 0
      if c_str client_code = c_str (c_buf svc.permitted_code) then
        match send env.out 3 with
        | (bytes_written, out) =>
          Event.recv 9 bytes_read :: Event.send svc.accept_tag bytes_written
            :: session_key svc env sock out
      else
        match send env.out 6 with
        | (bytes_written, _) =>
          [Event.recv 9 bytes_read, Event.send reject_tag bytes_written, Event.close,
            Event.exit 1]

/-- Session of `enc_server`. -/
def enc_server_session (env : Env) : List Event := server_session enc_service env

/-- Session of `dec_server`. -/
def dec_server_session (env : Env) : List Event := server_session dec_service env

/-- The bytes a trace has put on the connection: for every `send`, as many of its
bytes as the call returned. -/
def written : List Event → List Nat
  | [] => []
  | Event.send bytes ret :: rest => bytes.take ret.toNat ++ written rest
  | _ :: rest => written rest

/-- The part of a trace that follows the call of the transform. -/
def after_transform : List Event → List Event
  | [] => []
  | Event.transform _ _ _ :: rest => rest
  | _ :: rest => after_transform rest

/-- The bytes of the result segment: what a trace has put on the connection after
the call of the transform. -/
def response (trace : List Event) : List Nat := written (after_transform trace)

/-- Whether a trace calls the transform. -/
def calls_transform : List Event → Bool
  | [] => false
  | Event.transform _ _ _ :: _ => true
  | _ :: rest => calls_transform rest

/-- The four bytes of a length field: `n` as an unsigned 32-bit big-endian number. -/
def be32 (n : Nat) : List Nat :=
  [n / 16777216 % 256, n / 65536 % 256, n / 256 % 256, n % 256]

/-! ## Requester (`enc_client.c`): validation before the network phase -/

/-- What the C library reports for one file path. -/
structure FileEnv where
  /-- the bytes of the file; `none` when `fopen` fails -/
  content : Option (List Nat)
  /-- whether `ftell` succeeds -/
  ftell_ok : Bool
  /-- whether `malloc` succeeds -/
  malloc_ok : Bool
  /-- how many bytes `fread` delivers at most -/
  fread_max : Nat

/-- Value `strcspn(buffer, "\n")`: the number of bytes of the C string `buffer` before
its first newline (all of them when it has none). -/
def strcspn_newline (buffer : List Nat) : Nat :=
  (buffer.takeWhile (fun b => b != 0 && b != 10)).length

/-- The validation loop of `parse_valid_file` (enc_client.c:281-287) from the cell it
stands on: `some true` when it reaches the terminator, `some false` when it meets a
character that is neither `isupper` nor `isspace`, `none` when it leaves the buffer. -/
def valid_chars : List Nat → Option Bool
  | [] => none
  | b :: rest =>
    if b = 0 then some true
    else if !(isupper (char_val b) || isspace (char_val b)) then some false
    else valid_chars rest

/-- Function `parse_valid_file` (enc_client.c:246-289). The buffer returned holds the
cells up to the terminator written at `buffer[file_bytes_read]`; the cells that
`malloc` left behind it are never read. -/
def parse_valid_file (file : FileEnv) : Ret :=
  match file.content with
  | none => Ret.null
  | some content =>
    let file_size := content.length
    if !file.ftell_ok then Ret.null
    else if !file.malloc_ok then Ret.null
    else
      let file_bytes_read := min file.fread_max file_size
      if file_bytes_read < 1 then Ret.null
      else
        let buffer := content.take file_bytes_read ++ [0]
        let buffer := buffer.set (strcspn_newline buffer) 0
        match valid_chars buffer with
        | none => Ret.undefined
        | some false => Ret.null
        | some true => Ret.ptr buffer

/-- How `main` of `enc_client` leaves its local phase (enc_client.c:45-85). -/
inductive ClientStart where
  /-- the process exited with this code; no socket was created -/
  | exit (code : Nat) : ClientStart
  /-- the process goes on to `socket()` and the exchange, with these buffers -/
  | network (key_buffer text_buffer : List Nat) (port_arg : Int) : ClientStart
  /-- the process ran into undefined behaviour -/
  | undefined : ClientStart
  deriving DecidableEq

/-- Function `main` of `enc_client` up to the call of `socket` (enc_client.c:45-78):
`key_file` is the file named by `argv[2]`, `text_file` the one named by `argv[1]`,
`port_arg` the value `atoi(argv[3])`. -/
def enc_client_start (argc : Nat) (key_file text_file : FileEnv) (port_arg : Int) :
    ClientStart :=
  if argc < 4 then ClientStart.exit 1
  else
    match parse_valid_file key_file with
    | Ret.undefined => ClientStart.undefined
    | Ret.null => ClientStart.exit 1
    | Ret.ptr key_buffer =>
      match strlen key_buffer with
      | none => ClientStart.undefined
      | some key_len =>
        match parse_valid_file text_file with
        | Ret.undefined => ClientStart.undefined
        | Ret.null => ClientStart.exit 1
        | Ret.ptr text_buffer =>
          match strlen text_buffer with
          | none => ClientStart.undefined
          | some text_len =>
            if key_len < text_len then ClientStart.exit 1
            else if port_arg ≤ 0 then ClientStart.exit 1
            else ClientStart.network key_buffer text_buffer port_arg

/-! ## Requester (`enc_client.c`): the exchange -/

/-- Environment of the client process in its network phase. -/
structure ClientEnv where
  /-- whether `socket` succeeds -/
  socket_ok : Bool
  /-- whether `connect` succeeds -/
  connect_ok : Bool
  /-- what the server delivers to the successive calls of `recv` -/
  sock : List RecvItem
  /-- how the successive calls of `send` go -/
  out : List SendItem

/-- Observable step of the client process. -/
inductive ClientEvent where
  /-- call of `socket` -/
  | socket : ClientEvent
  /-- call of `connect` -/
  | connect : ClientEvent
  /-- call of `send` on these bytes, which returned `ret` -/
  | send (bytes : List Nat) (ret : Int) : ClientEvent
  /-- call of `recv` asking for `len` bytes, which returned `ret` -/
  | recv (len : Nat) (ret : Int) : ClientEvent
  /-- call of `close` on the socket -/
  | close : ClientEvent
  /-- the C string printed on the output stream, before its newline -/
  | print (text : List Nat) : ClientEvent
  /-- call of `exit`, or return from `main`, with this code -/
  | exit (code : Nat) : ClientEvent
  /-- the process ran into undefined behaviour -/
  | undefined : ClientEvent
  deriving DecidableEq

/-- The loops `while (total_written < key_len)` (enc_client.c:139-155) and
`while (total_written < text_len)` (lines 170-186): the events of the loop and the
connection left when the loop is left normally. The first argument bounds the number of
iterations; every iteration that goes on has written a byte, so `len + 1` is never
used up. -/
def client_send_body (buffer : List Nat) (len : Nat) :
    Nat → List SendItem → Int → List ClientEvent × Option (List SendItem)
  | 0, _, _ => ([], none)
  | fuel + 1, out, total_written =>
    if total_written < (len : Int) then
      match send out ((len : Int) - total_written).toNat with
      | (bytes_written, out) =>
        let bytes := (buffer.drop total_written.toNat).take
          ((len : Int) - total_written).toNat
        if bytes_written < 0 then
          ([ClientEvent.send bytes bytes_written, ClientEvent.close, ClientEvent.exit 2], none)
        else if bytes_written = 0 then
          ([ClientEvent.send bytes bytes_written, ClientEvent.close, ClientEvent.exit 2], none)
        else
          match client_send_body buffer len fuel out (total_written + bytes_written) with
          | (events, result) => (ClientEvent.send bytes bytes_written :: events, result)
    else ([], some out)

/-- The loop `while (total_read < text_len)` reading the response and the end of `main`
(enc_client.c:194-216). -/
def client_recv_result (text_len : Nat) :
    Nat → List RecvItem → List Nat → Int → List ClientEvent
  | 0, _, _, _ => []
  | fuel + 1, sock, text_buffer, total_read =>
    if total_read < (text_len : Int) then
      match recv sock ((text_len : Int) - total_read).toNat with
      | (bytes_read, bytes, sock) =>
        if bytes_read < 0 then
          [ClientEvent.recv ((text_len : Int) - total_read).toNat bytes_read,
            ClientEvent.close, ClientEvent.exit 2]
        else if bytes_read = 0 then
          [ClientEvent.recv ((text_len : Int) - total_read).toNat bytes_read,
            ClientEvent.close, ClientEvent.exit 2]
        else
          ClientEvent.recv ((text_len : Int) - total_read).toNat bytes_read
            :: client_recv_result text_len fuel sock
                (store text_buffer total_read.toNat bytes) (total_read + bytes_read)
    else
      if text_len < text_buffer.length then
        [ClientEvent.print (c_str (text_buffer.set text_len 0)), ClientEvent.close,
          ClientEvent.exit 0]
      else [ClientEvent.undefined]

/-- The frames and the response (enc_client.c:126-216), once the reply "enc" has been
read: the key frame, the payload frame, then the result. -/
def client_frames (sock : List RecvItem) (out : List SendItem)
    (key_buffer text_buffer : List Nat) (key_len text_len : Nat) : List ClientEvent :=
  match send out 4 with
  | (bytes_written, out) =>
    if bytes_written < 0 then
      [ClientEvent.send (be32 (key_len % 4294967296)) bytes_written, ClientEvent.close,
        ClientEvent.exit 2]
    else
      match client_send_body key_buffer key_len (key_len + 1) out 0 with
      | (events, none) => ClientEvent.send (be32 (key_len % 4294967296)) bytes_written :: events
      | (events, some out) =>
        match send out 4 with
        | (bytes_written2, out) =>
          if bytes_written2 < 0 then
            ClientEvent.send (be32 (key_len % 4294967296)) bytes_written :: events
              ++ [ClientEvent.send (be32 (text_len % 4294967296)) bytes_written2,
                ClientEvent.close, ClientEvent.exit 2]
          else
            match client_send_body text_buffer text_len (text_len + 1) out 0 with
            | (events2, none) =>
              ClientEvent.send (be32 (key_len % 4294967296)) bytes_written :: events
                ++ ClientEvent.send (be32 (text_len % 4294967296)) bytes_written2 :: events2
            | (events2, some _) =>
              ClientEvent.send (be32 (key_len % 4294967296)) bytes_written :: events
                ++ ClientEvent.send (be32 (text_len % 4294967296)) bytes_written2 :: events2
                ++ client_recv_result text_len (text_len + 1) sock
                    (store text_buffer 0 (List.replicate (text_len + 1) 0)) 0

/-- Function `main` of `enc_client` from the call of `socket` on (enc_client.c:78-217),
with the two validated buffers. -/
def enc_client_network (env : ClientEnv) (key_buffer text_buffer : List Nat) :
    List ClientEvent :=
  match strlen key_buffer, strlen text_buffer with
  | some key_len, some text_len =>
    if !env.socket_ok then [ClientEvent.socket, ClientEvent.exit 2]
    else if !env.connect_ok then
      [ClientEvent.socket, ClientEvent.connect, ClientEvent.close, ClientEvent.exit 2]
    else
      match send env.out 4 with
      | (bytes_written, out) =>
        if bytes_written < 0 then
          [ClientEvent.socket, ClientEvent.connect,
            ClientEvent.send [52, 51, 50, 49] bytes_written, ClientEvent.close,
            ClientEvent.exit 2]
        else
          let access_response := List.replicate 10 0
          match recv env.sock 9 with
          | (bytes_read, bytes, sock) =>
            if bytes_read < 0 then
              [ClientEvent.socket, ClientEvent.connect,
                ClientEvent.send [52, 51, 50, 49] bytes_written, ClientEvent.recv 9 bytes_read,
                ClientEvent.close, ClientEvent.exit 2]
            else
              let access_response := (store access_response 0 bytes).set bytes_read.toNat 0
              if c_str access_response ≠ c_str (c_buf [101, 110, 99]) then
                [ClientEvent.socket, ClientEvent.connect,
                  ClientEvent.send [52, 51, 50, 49] bytes_written,
                  ClientEvent.recv 9 bytes_read, ClientEvent.close, ClientEvent.exit 2]
              else
                ClientEvent.socket :: ClientEvent.connect
                  :: ClientEvent.send [52, 51, 50, 49] bytes_written
                  :: ClientEvent.recv 9 bytes_read
                  :: client_frames sock out key_buffer text_buffer key_len text_len
  | _, _ => [ClientEvent.undefined]

/-- Function `main` of `enc_client` (enc_client.c:33-217). -/
def enc_client_main (argc : Nat) (key_file text_file : FileEnv) (port_arg : Int)
    (env : ClientEnv) : List ClientEvent :=
  match enc_client_start argc key_file text_file port_arg with
  | ClientStart.exit code => [ClientEvent.exit code]
  | ClientStart.undefined => [ClientEvent.undefined]
  | ClientStart.network key_buffer text_buffer _ =>
    enc_client_network env key_buffer text_buffer

/-- The bytes a client trace has put on the connection: for every `send`, as many of
its bytes as the call returned. -/
def client_written : List ClientEvent → List Nat
  | [] => []
  | ClientEvent.send bytes ret :: rest => bytes.take ret.toNat ++ client_written rest
  | _ :: rest => client_written rest

/-! ## Array accesses of the transform loops -/

/-- One array access of the loop of `encrypt_msg` or `decrypt_msg`, with its index. -/
inductive Access where
  /-- read of `message[i]` (`cipher[i]` in `decrypt_msg`) -/
  | message (i : Nat) : Access
  /-- read of `key_seq[i]` -/
  | key_seq (i : Nat) : Access
  /-- write of `cipher_msg[i]` (`message[i]` in `decrypt_msg`), the output buffer -/
  | output (i : Nat) : Access
  deriving DecidableEq

/-- The `for` loop of `encrypt_msg` (with `encrypt_byte`) or of `decrypt_msg` (with
`decrypt_byte`) together with the array accesses it performs, in order: at every
index the test `message[i] != 0`, then in the body the read of `message[i]`, the
read of `key_seq[i]` and the write of `output[i]`. The result is the one of
`encrypt_loop` (`decrypt_loop`). -/
def loop_accesses (byte : Nat → Nat → Nat) (message key_seq : List Nat) :
    Nat → Nat → List Nat → List Access × Option (List Nat)
  | 0, _, _ => ([], none)
  | fuel + 1, i, output =>
    match message[i]? with
    | none => ([Access.message i], none)
    | some msg_byte =>
      if msg_byte = 0 then ([Access.message i], some output)
      else
        match key_seq[i]? with
        | none => ([Access.message i, Access.message i, Access.key_seq i], none)
        | some key_byte =>
          if i < output.length then
            match loop_accesses byte message key_seq fuel (i + 1)
                (output.set i (byte msg_byte key_byte)) with
            | (log, result) =>
              (Access.message i :: Access.message i :: Access.key_seq i
                :: Access.output i :: log, result)
          else
            ([Access.message i, Access.message i, Access.key_seq i, Access.output i], none)

/-- The accesses of one iteration of the loop at index `i`. -/
def iteration_accesses (i : Nat) : List Access :=
  [Access.message i, Access.message i, Access.key_seq i, Access.output i]

/-- Whether an access lies before index `n`. -/
def Access.below (n : Nat) : Access → Bool
  | Access.message i => decide (i < n)
  | Access.key_seq i => decide (i < n)
  | Access.output i => decide (i < n)

/-! ## Whitespace -/

/-- The message with every whitespace character replaced by the space. -/
def fold_whitespace (M : List Nat) : List Nat :=
  M.map (fun b => if isspace (char_val b) then 32 else b)

/-- Membership of a byte in the set `parse_valid_file` admits: an uppercase letter or
a whitespace character of the C locale. -/
def admitted (b : Nat) : Prop :=
  b < 256 ∧ (isupper (char_val b) = true ∨ isspace (char_val b) = true)

instance (b : Nat) : Decidable (admitted b) := by unfold admitted; infer_instance

end OtpCipher

namespace OtpCipher

/-! ## Lemmas on the cipher engine -/

theorem size_t_of_int_succ (n : Nat) (h : (n : Int) + 1 ≤ INT_MAX) :
    size_t_of_int ((n : Int) + 1) = n + 1 := by
  unfold size_t_of_int
  unfold INT_MAX at h
  omega

theorem getElem?_c_buf_lt (M : List Nat) (i : Nat) (h : i < M.length) :
    (c_buf M)[i]? = some (M[i]) := by
  unfold c_buf
  rw [List.getElem?_append_left h, List.getElem?_eq_getElem h]

theorem getElem?_c_buf_length (M : List Nat) : (c_buf M)[M.length]? = some 0 := by
  unfold c_buf
  simp

theorem take_succ_set (out : List Nat) (i c : Nat) (h : i < out.length) :
    (out.set i c).take (i + 1) = out.take i ++ [c] := by
  rw [List.set_eq_take_append_cons_drop, if_pos h, List.take_append_eq_append_take]
  simp [List.length_take, Nat.min_eq_left (Nat.le_of_lt h)]

theorem encrypt_loop_step (message key_seq out : List Nat) (fuel i m k : Nat)
    (hm : message[i]? = some m) (hne : m ≠ 0) (hk : key_seq[i]? = some k)
    (ho : i < out.length) :
    encrypt_loop message key_seq (fuel + 1) i out
      = encrypt_loop message key_seq fuel (i + 1) (out.set i (encrypt_byte m k)) := by
  rw [encrypt_loop]
  simp only [hm, hk, hne, ho, if_false, if_true]
  rfl

theorem decrypt_loop_step (cipher key_seq out : List Nat) (fuel i c k : Nat)
    (hc : cipher[i]? = some c) (hne : c ≠ 0) (hk : key_seq[i]? = some k)
    (ho : i < out.length) :
    decrypt_loop cipher key_seq (fuel + 1) i out
      = decrypt_loop cipher key_seq fuel (i + 1) (out.set i (decrypt_byte c k)) := by
  rw [decrypt_loop]
  simp only [hc, hk, hne, ho, if_false, if_true]
  rfl

/-- The loop of `encrypt_msg` on a NUL-free message `M` (held with its terminator)
and a key buffer at least as long: it leaves on the terminator, having written
`encrypt_byte M[j] key_seq[j]` at every `j` from `i` up to `M.length`. -/
theorem encrypt_loop_eq (M key_seq : List Nat) (hM : ∀ b ∈ M, b ≠ 0)
    (hK : M.length ≤ key_seq.length) :
    ∀ (d i fuel : Nat) (out : List Nat), i + d = M.length → M.length < out.length →
      d < fuel →
      encrypt_loop (c_buf M) key_seq fuel i out
        = some (out.take i ++ List.zipWith encrypt_byte (M.drop i) (key_seq.drop i)
            ++ out.drop M.length) := by
  intro d
  induction d with
  | zero =>
    intro i fuel out hi hout hfuel
    obtain ⟨f, rfl⟩ : ∃ f, fuel = f + 1 := ⟨fuel - 1, by omega⟩
    have hi' : i = M.length := by omega
    subst hi'
    simp [encrypt_loop, getElem?_c_buf_length]
  | succ d ih =>
    intro i fuel out hi hout hfuel
    obtain ⟨f, rfl⟩ : ∃ f, fuel = f + 1 := ⟨fuel - 1, by omega⟩
    have hiM : i < M.length := by omega
    have hiK : i < key_seq.length := by omega
    have hne : M[i] ≠ 0 := hM _ (List.getElem_mem hiM)
    have hio : i < out.length := by omega
    rw [encrypt_loop_step (c_buf M) key_seq out f i M[i] key_seq[i]
      (getElem?_c_buf_lt M i hiM) hne (List.getElem?_eq_getElem hiK) hio]
    rw [ih (i + 1) f _ (by omega) (by simpa using hout) (by omega)]
    have hz : List.zipWith encrypt_byte (List.drop i M) (List.drop i key_seq)
        = encrypt_byte M[i] key_seq[i]
            :: List.zipWith encrypt_byte (List.drop (i + 1) M) (List.drop (i + 1) key_seq) := by
      rw [show List.drop i M = M[i] :: List.drop (i + 1) M from
          List.drop_eq_getElem_cons hiM,
        show List.drop i key_seq = key_seq[i] :: List.drop (i + 1) key_seq from
          List.drop_eq_getElem_cons hiK]
      rfl
    rw [List.drop_set_of_lt _ _ hiM, take_succ_set out i _ hio, hz]
    simp only [List.append_assoc, List.cons_append, List.nil_append]

/-- The loop of `decrypt_msg`, as `encrypt_loop_eq`. -/
theorem decrypt_loop_eq (C key_seq : List Nat) (hC : ∀ b ∈ C, b ≠ 0)
    (hK : C.length ≤ key_seq.length) :
    ∀ (d i fuel : Nat) (out : List Nat), i + d = C.length → C.length < out.length →
      d < fuel →
      decrypt_loop (c_buf C) key_seq fuel i out
        = some (out.take i ++ List.zipWith decrypt_byte (C.drop i) (key_seq.drop i)
            ++ out.drop C.length) := by
  intro d
  induction d with
  | zero =>
    intro i fuel out hi hout hfuel
    obtain ⟨f, rfl⟩ : ∃ f, fuel = f + 1 := ⟨fuel - 1, by omega⟩
    have hi' : i = C.length := by omega
    subst hi'
    simp [decrypt_loop, getElem?_c_buf_length]
  | succ d ih =>
    intro i fuel out hi hout hfuel
    obtain ⟨f, rfl⟩ : ∃ f, fuel = f + 1 := ⟨fuel - 1, by omega⟩
    have hiM : i < C.length := by omega
    have hiK : i < key_seq.length := by omega
    have hne : C[i] ≠ 0 := hC _ (List.getElem_mem hiM)
    have hio : i < out.length := by omega
    rw [decrypt_loop_step (c_buf C) key_seq out f i C[i] key_seq[i]
      (getElem?_c_buf_lt C i hiM) hne (List.getElem?_eq_getElem hiK) hio]
    rw [ih (i + 1) f _ (by omega) (by simpa using hout) (by omega)]
    have hz : List.zipWith decrypt_byte (List.drop i C) (List.drop i key_seq)
        = decrypt_byte C[i] key_seq[i]
            :: List.zipWith decrypt_byte (List.drop (i + 1) C) (List.drop (i + 1) key_seq) := by
      rw [show List.drop i C = C[i] :: List.drop (i + 1) C from
          List.drop_eq_getElem_cons hiM,
        show List.drop i key_seq = key_seq[i] :: List.drop (i + 1) key_seq from
          List.drop_eq_getElem_cons hiK]
      rfl
    rw [List.drop_set_of_lt _ _ hiM, take_succ_set out i _ hio, hz]
    simp only [List.append_assoc, List.cons_append, List.nil_append]

/-- Result of `encrypt_msg` on a NUL-free message of representable length with a key
buffer at least as long, when the allocation succeeds: the buffer of the bytes
`encrypt_byte M[j] key_seq[j]` followed by the terminator. -/
theorem encrypt_msg_eq (calloc_ok : Nat → Bool) (M key_seq : List Nat)
    (hM : ∀ b ∈ M, b ≠ 0) (hK : M.length ≤ key_seq.length)
    (hlen : (M.length : Int) + 1 ≤ INT_MAX) (hok : calloc_ok (M.length + 1) = true) :
    encrypt_msg calloc_ok (c_buf M) M.length key_seq
      = Ret.ptr (c_buf (List.zipWith encrypt_byte M key_seq)) := by
  have hsz := size_t_of_int_succ M.length hlen
  have hloop := encrypt_loop_eq M key_seq hM hK M.length 0 ((c_buf M).length + 1)
    (List.replicate (M.length + 1) 0) (by simp) (by simp)
    (by simp only [c_buf, List.length_append, List.length_singleton]; omega)
  have hdrop : List.drop M.length (List.replicate (M.length + 1) 0) = [0] := by
    simp [List.drop_replicate]
  simp only [List.take_zero, List.nil_append, List.drop_zero, hdrop] at hloop
  unfold encrypt_msg
  simp only [hsz, hok, hloop, gt_iff_lt, not_lt.mpr hlen, if_false, Bool.not_true,
    Bool.false_eq_true, Int.toNat_ofNat]
  have hl : (List.zipWith encrypt_byte M key_seq).length = M.length := by
    simp [List.length_zipWith, hK]
  have hset : (List.zipWith encrypt_byte M key_seq ++ [0]).set M.length 0
      = List.zipWith encrypt_byte M key_seq ++ [0] := by
    rw [List.set_append_right _ _ (by omega), hl]
    simp
  simp [c_buf, hl, hset]

/-- Result of `decrypt_msg`, as `encrypt_msg_eq`. -/
theorem decrypt_msg_eq (calloc_ok : Nat → Bool) (C key_seq : List Nat)
    (hC : ∀ b ∈ C, b ≠ 0) (hK : C.length ≤ key_seq.length)
    (hlen : (C.length : Int) + 1 ≤ INT_MAX) (hok : calloc_ok (C.length + 1) = true) :
    decrypt_msg calloc_ok (c_buf C) C.length key_seq
      = Ret.ptr (c_buf (List.zipWith decrypt_byte C key_seq)) := by
  have hsz := size_t_of_int_succ C.length hlen
  have hloop := decrypt_loop_eq C key_seq hC hK C.length 0 ((c_buf C).length + 1)
    (List.replicate (C.length + 1) 0) (by simp) (by simp)
    (by simp only [c_buf, List.length_append, List.length_singleton]; omega)
  have hdrop : List.drop C.length (List.replicate (C.length + 1) 0) = [0] := by
    simp [List.drop_replicate]
  simp only [List.take_zero, List.nil_append, List.drop_zero, hdrop] at hloop
  unfold decrypt_msg
  simp only [hsz, hok, hloop, gt_iff_lt, not_lt.mpr hlen, if_false, Bool.not_true,
    Bool.false_eq_true, Int.toNat_ofNat]
  have hl : (List.zipWith decrypt_byte C key_seq).length = C.length := by
    simp [List.length_zipWith, hK]
  have hset : (List.zipWith decrypt_byte C key_seq ++ [0]).set C.length 0
      = List.zipWith decrypt_byte C key_seq ++ [0] := by
    rw [List.set_append_right _ _ (by omega), hl]
    simp
  simp [c_buf, hl, hset]

/-- The 27 bytes of Alphabet-27. -/
theorem alphabet27_iff_mem (b : Nat) : alphabet27 b ↔ b ∈ 32 :: List.range' 65 26 := by
  simp only [alphabet27, List.mem_cons, List.mem_range']
  constructor
  · rintro (h | ⟨h1, h2⟩)
    · exact Or.inl h
    · exact Or.inr ⟨b - 65, by omega, by omega⟩
  · rintro (h | ⟨i, h1, h2⟩)
    · exact Or.inl h
    · exact Or.inr (by omega)

/-- What one iteration of either loop does on two symbols of Alphabet-27. -/
theorem byte_facts : ∀ m ∈ 32 :: List.range' 65 26, ∀ k ∈ 32 :: List.range' 65 26,
    alphabet27 (encrypt_byte m k) ∧ alphabet27 (decrypt_byte m k)
      ∧ decrypt_byte (encrypt_byte m k) k = m
      ∧ encrypt_byte m k = encode_ref m k ∧ decrypt_byte m k = decode_ref m k := by
  decide

theorem alphabet27_ne_zero (b : Nat) (h : alphabet27 b) : b ≠ 0 := by
  unfold alphabet27 at h
  omega

theorem encrypt_byte_alphabet27 (m k : Nat) (hm : alphabet27 m) (hk : alphabet27 k) :
    alphabet27 (encrypt_byte m k) :=
  (byte_facts m ((alphabet27_iff_mem m).1 hm) k ((alphabet27_iff_mem k).1 hk)).1

theorem decrypt_byte_alphabet27 (c k : Nat) (hc : alphabet27 c) (hk : alphabet27 k) :
    alphabet27 (decrypt_byte c k) :=
  (byte_facts c ((alphabet27_iff_mem c).1 hc) k ((alphabet27_iff_mem k).1 hk)).2.1

theorem decrypt_encrypt_byte (m k : Nat) (hm : alphabet27 m) (hk : alphabet27 k) :
    decrypt_byte (encrypt_byte m k) k = m :=
  (byte_facts m ((alphabet27_iff_mem m).1 hm) k ((alphabet27_iff_mem k).1 hk)).2.2.1

theorem encrypt_byte_eq_ref (m k : Nat) (hm : alphabet27 m) (hk : alphabet27 k) :
    encrypt_byte m k = encode_ref m k :=
  (byte_facts m ((alphabet27_iff_mem m).1 hm) k ((alphabet27_iff_mem k).1 hk)).2.2.2.1

theorem decrypt_byte_eq_ref (c k : Nat) (hc : alphabet27 c) (hk : alphabet27 k) :
    decrypt_byte c k = decode_ref c k :=
  (byte_facts c ((alphabet27_iff_mem c).1 hc) k ((alphabet27_iff_mem k).1 hk)).2.2.2.2

/-- Symbols of the key buffer past the message length are not used. -/
theorem zipWith_c_buf (f : Nat → Nat → Nat) :
    ∀ (M K : List Nat), M.length ≤ K.length →
      List.zipWith f M (c_buf K) = List.zipWith f M K
  | [], _, _ => by simp
  | _ :: _, [], h => by simp at h
  | m :: M, k :: K, h => by
    have h' : M.length ≤ K.length := by simpa using h
    have ih := zipWith_c_buf f M K h'
    simp only [c_buf, List.cons_append, List.zipWith_cons_cons] at ih ⊢
    rw [ih]

theorem zipWith_mem_alphabet27 (f : Nat → Nat → Nat)
    (hf : ∀ m k, alphabet27 m → alphabet27 k → alphabet27 (f m k)) :
    ∀ (M K : List Nat), (∀ b ∈ M, alphabet27 b) → (∀ b ∈ K, alphabet27 b) →
      ∀ c ∈ List.zipWith f M K, alphabet27 c
  | [], _, _, _ => by simp
  | _ :: _, [], _, _ => by simp
  | m :: M, k :: K, hM, hK => by
    intro c hc
    simp only [List.zipWith_cons_cons, List.mem_cons] at hc
    rcases hc with rfl | hc
    · exact hf m k (hM m (by simp)) (hK k (by simp))
    · exact zipWith_mem_alphabet27 f hf M K (fun b hb => hM b (by simp [hb]))
        (fun b hb => hK b (by simp [hb])) c hc

theorem zipWith_decrypt_encrypt :
    ∀ (M K : List Nat), (∀ b ∈ M, alphabet27 b) → (∀ b ∈ K, alphabet27 b) →
      M.length ≤ K.length →
      List.zipWith decrypt_byte (List.zipWith encrypt_byte M K) K = M
  | [], _, _, _, _ => by simp
  | _ :: _, [], _, _, h => by simp at h
  | m :: M, k :: K, hM, hK, h => by
    have h' : M.length ≤ K.length := by simpa using h
    simp only [List.zipWith_cons_cons]
    rw [decrypt_encrypt_byte m k (hM m (by simp)) (hK k (by simp)),
      zipWith_decrypt_encrypt M K (fun b hb => hM b (by simp [hb]))
        (fun b hb => hK b (by simp [hb])) h']

theorem strlen_c_buf : ∀ (S : List Nat), (∀ b ∈ S, b ≠ 0) → strlen (c_buf S) = some S.length
  | [], _ => by simp [c_buf, strlen]
  | b :: S, h => by
    have hb : b ≠ 0 := h b (by simp)
    have ih := strlen_c_buf S (fun x hx => h x (by simp [hx]))
    simp only [c_buf, List.cons_append, strlen, hb, if_false, List.length_cons] at ih ⊢
    show Option.map (fun x => x + 1) (strlen (S ++ [0])) = some (S.length + 1)
    rw [ih]
    rfl

/-- On Alphabet-27 input with a long enough key, `encrypt_msg` returns the buffer of
the symbols `encrypt_byte M[i] K[i]`. -/
theorem encrypt_msg_alphabet27 (calloc_ok : Nat → Bool) (M K : List Nat)
    (hM : ∀ b ∈ M, alphabet27 b) (hlen : M.length ≤ K.length)
    (hint : (M.length : Int) + 1 ≤ INT_MAX) (hok : calloc_ok (M.length + 1) = true) :
    encrypt_msg calloc_ok (c_buf M) M.length (c_buf K)
      = Ret.ptr (c_buf (List.zipWith encrypt_byte M K)) := by
  rw [encrypt_msg_eq calloc_ok M (c_buf K) (fun b hb => alphabet27_ne_zero b (hM b hb))
    (by simp only [c_buf, List.length_append, List.length_singleton]; omega) hint hok,
    zipWith_c_buf encrypt_byte M K hlen]

/-- On Alphabet-27 input with a long enough key, `decrypt_msg` returns the buffer of
the symbols `decrypt_byte C[i] K[i]`. -/
theorem decrypt_msg_alphabet27 (calloc_ok : Nat → Bool) (C K : List Nat)
    (hC : ∀ b ∈ C, alphabet27 b) (hlen : C.length ≤ K.length)
    (hint : (C.length : Int) + 1 ≤ INT_MAX) (hok : calloc_ok (C.length + 1) = true) :
    decrypt_msg calloc_ok (c_buf C) C.length (c_buf K)
      = Ret.ptr (c_buf (List.zipWith decrypt_byte C K)) := by
  rw [decrypt_msg_eq calloc_ok C (c_buf K) (fun b hb => alphabet27_ne_zero b (hC b hb))
    (by simp only [c_buf, List.length_append, List.length_singleton]; omega) hint hok,
    zipWith_c_buf decrypt_byte C K hlen]

theorem getElem?_c_buf_zipWith (f : Nat → Nat → Nat) (M K : List Nat) (i m k : Nat)
    (hm : M[i]? = some m) (hk : K[i]? = some k) :
    (c_buf (List.zipWith f M K))[i]? = some (f m k) := by
  have hi : i < (List.zipWith f M K).length := by
    have h1 := (List.getElem?_eq_some.1 hm).1
    have h2 := (List.getElem?_eq_some.1 hk).1
    simp only [List.length_zipWith]
    omega
  unfold c_buf
  rw [List.getElem?_append_left hi, List.getElem?_zipWith, hm, hk]

/-! ## Theorems on the cipher engine -/

/-- C1 (round trip). For every message `M` and key `K` over Alphabet-27 with
`len(K) ≥ len(M)` (the length fitting `int` and the allocations succeeding),
`encrypt_msg(M, len(M), K)` returns a buffer, and `decrypt_msg` of that buffer with
`len(M)` and `K` returns the buffer holding `M` again. -/
theorem decrypt_encrypt_roundtrip (calloc_ok : Nat → Bool) (M K : List Nat)
    (hM : ∀ b ∈ M, alphabet27 b) (hK : ∀ b ∈ K, alphabet27 b)
    (hlen : M.length ≤ K.length) (hint : (M.length : Int) + 1 ≤ INT_MAX)
    (hok : calloc_ok (M.length + 1) = true) :
    ∃ cipher, encrypt_msg calloc_ok (c_buf M) M.length (c_buf K) = Ret.ptr cipher
      ∧ decrypt_msg calloc_ok cipher M.length (c_buf K) = Ret.ptr (c_buf M)
      ∧ c_str (c_buf M) = M := by
  refine ⟨c_buf (List.zipWith encrypt_byte M K),
    encrypt_msg_alphabet27 calloc_ok M K hM hlen hint hok, ?_, ?_⟩
  · have hl : (List.zipWith encrypt_byte M K).length = M.length := by
      simp [List.length_zipWith, hlen]
    have h := decrypt_msg_alphabet27 calloc_ok (List.zipWith encrypt_byte M K) K
      (zipWith_mem_alphabet27 encrypt_byte encrypt_byte_alphabet27 M K hM hK)
      (by omega) (by rw [hl]; exact hint) (by rw [hl]; exact hok)
    rw [hl, zipWith_decrypt_encrypt M K hM hK hlen] at h
    exact h
  · unfold c_str c_buf
    rw [List.takeWhile_append_of_pos]
    · simp
    · intro b hb
      simpa using alphabet27_ne_zero b (hM b hb)

/-- Witness of C1 on the message "HI" with the key "XYZ". -/
theorem decrypt_encrypt_roundtrip_witness :
    ∃ cipher, encrypt_msg (fun _ => true) (c_buf [72, 73]) ([72, 73] : List Nat).length
        (c_buf [88, 89, 90]) = Ret.ptr cipher
      ∧ decrypt_msg (fun _ => true) cipher ([72, 73] : List Nat).length (c_buf [88, 89, 90])
        = Ret.ptr (c_buf [72, 73])
      ∧ c_str (c_buf [72, 73]) = [72, 73] :=
  decrypt_encrypt_roundtrip (fun _ => true) [72, 73] [88, 89, 90] (by decide) (by decide)
    (by decide) (by decide) rfl

/-- C2 (cipher reference definition). With `val` and `sym` of the specification, for
every `M` and `K` over Alphabet-27 with `len(K) ≥ len(M)` and every index `i` below
`len(M)`, symbol `i` of the buffer returned by `encrypt_msg` is
`sym ((val M[i] + val K[i]) mod 27)` and symbol `i` of the buffer returned by
`decrypt_msg` is `sym ((val M[i] - val K[i]) mod 27)`; and `encode("Z","B") = " "`,
`encode(" ","A") = " "`, `encode("A"," ") = " "`, `decode(" ","B") = "Z"`. -/
theorem cipher_refines_reference (calloc_ok : Nat → Bool) (M K : List Nat)
    (hM : ∀ b ∈ M, alphabet27 b) (hK : ∀ b ∈ K, alphabet27 b)
    (hlen : M.length ≤ K.length) (hint : (M.length : Int) + 1 ≤ INT_MAX)
    (hok : calloc_ok (M.length + 1) = true) :
    (∃ out, encrypt_msg calloc_ok (c_buf M) M.length (c_buf K) = Ret.ptr out
        ∧ ∀ (i m k : Nat), M[i]? = some m → K[i]? = some k →
            out[i]? = some (sym ((val m + val k) % 27)))
      ∧ (∃ out, decrypt_msg calloc_ok (c_buf M) M.length (c_buf K) = Ret.ptr out
        ∧ ∀ (i m k : Nat), M[i]? = some m → K[i]? = some k →
            out[i]? = some (sym ((((val m : Int) - (val k : Int)) % 27).toNat)))
      ∧ encrypt_msg (fun _ => true) (c_buf [90]) 1 (c_buf [66]) = Ret.ptr (c_buf [32])
      ∧ encrypt_msg (fun _ => true) (c_buf [32]) 1 (c_buf [65]) = Ret.ptr (c_buf [32])
      ∧ encrypt_msg (fun _ => true) (c_buf [65]) 1 (c_buf [32]) = Ret.ptr (c_buf [32])
      ∧ decrypt_msg (fun _ => true) (c_buf [32]) 1 (c_buf [66]) = Ret.ptr (c_buf [90]) := by
  refine ⟨⟨_, encrypt_msg_alphabet27 calloc_ok M K hM hlen hint hok, ?_⟩,
    ⟨_, decrypt_msg_alphabet27 calloc_ok M K hM hlen hint hok, ?_⟩,
    by decide, by decide, by decide, by decide⟩
  · intro i m k hm hk
    rw [getElem?_c_buf_zipWith encrypt_byte M K i m k hm hk,
      encrypt_byte_eq_ref m k (hM m (List.getElem?_mem hm)) (hK k (List.getElem?_mem hk))]
    rfl
  · intro i m k hm hk
    rw [getElem?_c_buf_zipWith decrypt_byte M K i m k hm hk,
      decrypt_byte_eq_ref m k (hM m (List.getElem?_mem hm)) (hK k (List.getElem?_mem hk))]
    rfl

/-- Witness of C2 on the message "Z " with the key "BA". -/
theorem cipher_refines_reference_witness :
    (∃ out, encrypt_msg (fun _ => true) (c_buf [90, 32]) ([90, 32] : List Nat).length
          (c_buf [66, 65]) = Ret.ptr out
        ∧ ∀ (i m k : Nat), ([90, 32] : List Nat)[i]? = some m → ([66, 65] : List Nat)[i]? = some k →
            out[i]? = some (sym ((val m + val k) % 27)))
      ∧ (∃ out, decrypt_msg (fun _ => true) (c_buf [90, 32]) ([90, 32] : List Nat).length
          (c_buf [66, 65]) = Ret.ptr out
        ∧ ∀ (i m k : Nat), ([90, 32] : List Nat)[i]? = some m → ([66, 65] : List Nat)[i]? = some k →
            out[i]? = some (sym ((((val m : Int) - (val k : Int)) % 27).toNat)))
      ∧ encrypt_msg (fun _ => true) (c_buf [90]) 1 (c_buf [66]) = Ret.ptr (c_buf [32])
      ∧ encrypt_msg (fun _ => true) (c_buf [32]) 1 (c_buf [65]) = Ret.ptr (c_buf [32])
      ∧ encrypt_msg (fun _ => true) (c_buf [65]) 1 (c_buf [32]) = Ret.ptr (c_buf [32])
      ∧ decrypt_msg (fun _ => true) (c_buf [32]) 1 (c_buf [66]) = Ret.ptr (c_buf [90]) :=
  cipher_refines_reference (fun _ => true) [90, 32] [66, 65] (by decide) (by decide)
    (by decide) (by decide) rfl

/-- C3 (length preservation). For every `M` and `K` over Alphabet-27 with
`len(K) ≥ len(M)`, the NUL-terminated string returned by `encrypt_msg(M, len(M), K)`
has length exactly `len(M)`, and so has the one returned by
`decrypt_msg(M, len(M), K)`. -/
theorem cipher_preserves_length (calloc_ok : Nat → Bool) (M K : List Nat)
    (hM : ∀ b ∈ M, alphabet27 b) (hK : ∀ b ∈ K, alphabet27 b)
    (hlen : M.length ≤ K.length) (hint : (M.length : Int) + 1 ≤ INT_MAX)
    (hok : calloc_ok (M.length + 1) = true) :
    (∃ out, encrypt_msg calloc_ok (c_buf M) M.length (c_buf K) = Ret.ptr out
        ∧ strlen out = some M.length)
      ∧ (∃ out, decrypt_msg calloc_ok (c_buf M) M.length (c_buf K) = Ret.ptr out
        ∧ strlen out = some M.length) := by
  have hl : ∀ f : Nat → Nat → Nat, (List.zipWith f M K).length = M.length := by
    intro f
    simp [List.length_zipWith, hlen]
  refine ⟨⟨_, encrypt_msg_alphabet27 calloc_ok M K hM hlen hint hok, ?_⟩,
    ⟨_, decrypt_msg_alphabet27 calloc_ok M K hM hlen hint hok, ?_⟩⟩
  · rw [strlen_c_buf _ (fun b hb => alphabet27_ne_zero b
      (zipWith_mem_alphabet27 encrypt_byte encrypt_byte_alphabet27 M K hM hK b hb)), hl]
  · rw [strlen_c_buf _ (fun b hb => alphabet27_ne_zero b
      (zipWith_mem_alphabet27 decrypt_byte decrypt_byte_alphabet27 M K hM hK b hb)), hl]

/-- Witness of C3 on the message "OTP" with the key "KEY ". -/
theorem cipher_preserves_length_witness :
    (∃ out, encrypt_msg (fun _ => true) (c_buf [79, 84, 80]) ([79, 84, 80] : List Nat).length
          (c_buf [75, 69, 89, 32]) = Ret.ptr out
        ∧ strlen out = some ([79, 84, 80] : List Nat).length)
      ∧ (∃ out, decrypt_msg (fun _ => true) (c_buf [79, 84, 80])
          ([79, 84, 80] : List Nat).length (c_buf [75, 69, 89, 32]) = Ret.ptr out
        ∧ strlen out = some ([79, 84, 80] : List Nat).length) :=
  cipher_preserves_length (fun _ => true) [79, 84, 80] [75, 69, 89, 32] (by decide)
    (by decide) (by decide) (by decide) rfl

/-- C4 (symbol closure). For every `M` and `K` over Alphabet-27 with
`len(K) ≥ len(M)`, every symbol at an index below `len(M)` of the buffer returned by
`encrypt_msg(M, len(M), K)`, and of the one returned by `decrypt_msg(M, len(M), K)`,
is in Alphabet-27. -/
theorem cipher_output_in_alphabet (calloc_ok : Nat → Bool) (M K : List Nat)
    (hM : ∀ b ∈ M, alphabet27 b) (hK : ∀ b ∈ K, alphabet27 b)
    (hlen : M.length ≤ K.length) (hint : (M.length : Int) + 1 ≤ INT_MAX)
    (hok : calloc_ok (M.length + 1) = true) :
    (∃ out, encrypt_msg calloc_ok (c_buf M) M.length (c_buf K) = Ret.ptr out
        ∧ ∀ i, i < M.length → ∃ c, out[i]? = some c ∧ alphabet27 c)
      ∧ (∃ out, decrypt_msg calloc_ok (c_buf M) M.length (c_buf K) = Ret.ptr out
        ∧ ∀ i, i < M.length → ∃ c, out[i]? = some c ∧ alphabet27 c) := by
  have key : ∀ f : Nat → Nat → Nat,
      (∀ m k, alphabet27 m → alphabet27 k → alphabet27 (f m k)) →
      ∀ i, i < M.length → ∃ c, (c_buf (List.zipWith f M K))[i]? = some c ∧ alphabet27 c := by
    intro f hf i hi
    have hiK : i < K.length := by omega
    refine ⟨f M[i] K[i], getElem?_c_buf_zipWith f M K i M[i] K[i]
      (List.getElem?_eq_getElem hi) (List.getElem?_eq_getElem hiK), ?_⟩
    exact hf _ _ (hM _ (List.getElem_mem hi)) (hK _ (List.getElem_mem hiK))
  exact ⟨⟨_, encrypt_msg_alphabet27 calloc_ok M K hM hlen hint hok,
      key encrypt_byte encrypt_byte_alphabet27⟩,
    ⟨_, decrypt_msg_alphabet27 calloc_ok M K hM hlen hint hok,
      key decrypt_byte decrypt_byte_alphabet27⟩⟩

/-- Witness of C4 on the message "A Z" with the key "  ZZ". -/
theorem cipher_output_in_alphabet_witness :
    (∃ out, encrypt_msg (fun _ => true) (c_buf [65, 32, 90]) ([65, 32, 90] : List Nat).length
          (c_buf [32, 32, 90, 90]) = Ret.ptr out
        ∧ ∀ i, i < ([65, 32, 90] : List Nat).length → ∃ c, out[i]? = some c ∧ alphabet27 c)
      ∧ (∃ out, decrypt_msg (fun _ => true) (c_buf [65, 32, 90])
          ([65, 32, 90] : List Nat).length (c_buf [32, 32, 90, 90]) = Ret.ptr out
        ∧ ∀ i, i < ([65, 32, 90] : List Nat).length → ∃ c, out[i]? = some c ∧ alphabet27 c) :=
  cipher_output_in_alphabet (fun _ => true) [65, 32, 90] [32, 32, 90, 90] (by decide)
    (by decide) (by decide) (by decide) rfl

end OtpCipher

namespace OtpCipher

/-! ## Theorems on the server session -/

theorem c_str_append_zero (l r : List Nat) : c_str (l ++ 0 :: r) = c_str l := by
  unfold c_str
  induction l with
  | nil => simp
  | cons b l ih =>
    by_cases hb : b = 0
    · simp [hb]
    · simp [List.takeWhile_cons, hb, ih]

/-- The array `client_code` after the first `recv` delivered at most 9 bytes and the
terminator was written: as a C string it is what was delivered, cut at its first NUL. -/
theorem c_str_client_code (bytes : List Nat) (h : bytes.length ≤ 9) :
    c_str ((store (List.replicate 10 0) 0 bytes).set bytes.length 0) = c_str bytes := by
  have hs : store (List.replicate 10 0) 0 bytes
      = bytes ++ 0 :: List.replicate (9 - bytes.length) 0 := by
    unfold store
    simp only [List.take_zero, List.nil_append, Nat.zero_add, List.drop_replicate]
    rw [show 10 - bytes.length = (9 - bytes.length) + 1 by omega, List.replicate_succ]
  rw [hs, List.set_append_right _ _ (le_refl _)]
  simp only [Nat.sub_self, List.set_cons_zero]
  exact c_str_append_zero bytes _

theorem recv_data_le (bytes : List Nat) (rest : List RecvItem) (len : Nat)
    (h : bytes.length ≤ len) :
    recv (RecvItem.data bytes :: rest) len = ((bytes.length : Int), bytes, rest) := by
  simp [recv, h]

/-- Part 2 starts by reading the length field of the key frame. -/
theorem session_key_starts_with_recv (svc : Service) (env : Env) (sock : List RecvItem)
    (out : List SendItem) :
    ∃ r tail, session_key svc env sock out = Event.recv 4 r :: tail := by
  unfold session_key
  generalize recv sock 4 = rv
  obtain ⟨bytes_read, bytes, sock1⟩ := rv
  simp only
  split
  · exact ⟨_, _, rfl⟩
  · split
    · exact ⟨_, _, rfl⟩
    · split
      · exact ⟨_, _, rfl⟩
      · split
        · exact ⟨_, _, rfl⟩
        · split
          · exact ⟨_, _, rfl⟩
          · exact ⟨_, _, rfl⟩

/-- The handshake of a session whose first `recv` delivers `bytes` (at most 9). -/
theorem server_session_handshake (svc : Service) (env : Env) (bytes : List Nat)
    (rest : List RecvItem) (hsock : env.sock = RecvItem.data bytes :: rest)
    (hlen : bytes.length ≤ 9) :
    server_session svc env =
      if c_str bytes = c_str (c_buf svc.permitted_code) then
        Event.recv 9 bytes.length :: Event.send svc.accept_tag (send env.out 3).1
          :: session_key svc env rest (send env.out 3).2
      else
        [Event.recv 9 bytes.length, Event.send reject_tag (send env.out 6).1, Event.close,
          Event.exit 1] := by
  unfold server_session
  rw [hsock, recv_data_le bytes rest 9 hlen]
  simp only [Int.toNat_ofNat, c_str_client_code bytes hlen]
  have hneg : ¬ ((bytes.length : Int) < 0) := by omega
  simp only [hneg, if_false]

/-- C5 (handshake gate), as the code has it. For every byte sequence of 0 to 9
bytes delivered by the first read, the encryption server replies "enc" and goes on to
read the length field of the key frame exactly when the sequence, cut at its first NUL
byte if it has one, is "4321" (decryption server: "dec", "1234"); for every other
sequence it sends "reject", closes and exits with code 1 without any further read. -/
theorem handshake_gate (env : Env) (bytes : List Nat) (rest : List RecvItem)
    (hsock : env.sock = RecvItem.data bytes :: rest) (hlen : bytes.length ≤ 9) :
    (c_str bytes = enc_service.permitted_code →
        ∃ w r tail, enc_server_session env
          = Event.recv 9 bytes.length :: Event.send enc_service.accept_tag w
              :: Event.recv 4 r :: tail)
      ∧ (c_str bytes ≠ enc_service.permitted_code →
        ∃ w, enc_server_session env
          = [Event.recv 9 bytes.length, Event.send reject_tag w, Event.close, Event.exit 1])
      ∧ (c_str bytes = dec_service.permitted_code →
        ∃ w r tail, dec_server_session env
          = Event.recv 9 bytes.length :: Event.send dec_service.accept_tag w
              :: Event.recv 4 r :: tail)
      ∧ (c_str bytes ≠ dec_service.permitted_code →
        ∃ w, dec_server_session env
          = [Event.recv 9 bytes.length, Event.send reject_tag w, Event.close,
              Event.exit 1]) := by
  have key : ∀ svc : Service, c_str (c_buf svc.permitted_code) = svc.permitted_code →
      (c_str bytes = svc.permitted_code →
        ∃ w r tail, server_session svc env
          = Event.recv 9 bytes.length :: Event.send svc.accept_tag w
              :: Event.recv 4 r :: tail)
      ∧ (c_str bytes ≠ svc.permitted_code →
        ∃ w, server_session svc env
          = [Event.recv 9 bytes.length, Event.send reject_tag w, Event.close,
              Event.exit 1]) := by
    intro svc hcode
    have h := server_session_handshake svc env bytes rest hsock hlen
    rw [hcode] at h
    constructor
    · intro heq
      rw [if_pos heq] at h
      obtain ⟨r, tail, hk⟩ := session_key_starts_with_recv svc env rest (send env.out 3).2
      exact ⟨_, r, tail, by rw [h, hk]⟩
    · intro hne
      rw [if_neg hne] at h
      exact ⟨_, h⟩
  have henc := key enc_service (by decide)
  have hdec := key dec_service (by decide)
  exact ⟨henc.1, henc.2, hdec.1, hdec.2⟩

/-- Witness of C5 on the credential "4321" followed by a closed connection. -/
theorem handshake_gate_witness :
    (c_str [52, 51, 50, 49] = enc_service.permitted_code →
        ∃ w r tail, enc_server_session
            ⟨[RecvItem.data [52, 51, 50, 49]], [], fun _ => true, [0, 0, 0, 1], [0, 0, 0, 1]⟩
          = Event.recv 9 ([52, 51, 50, 49] : List Nat).length
              :: Event.send enc_service.accept_tag w :: Event.recv 4 r :: tail)
      ∧ (c_str [52, 51, 50, 49] ≠ enc_service.permitted_code →
        ∃ w, enc_server_session
            ⟨[RecvItem.data [52, 51, 50, 49]], [], fun _ => true, [0, 0, 0, 1], [0, 0, 0, 1]⟩
          = [Event.recv 9 ([52, 51, 50, 49] : List Nat).length, Event.send reject_tag w,
              Event.close, Event.exit 1])
      ∧ (c_str [52, 51, 50, 49] = dec_service.permitted_code →
        ∃ w r tail, dec_server_session
            ⟨[RecvItem.data [52, 51, 50, 49]], [], fun _ => true, [0, 0, 0, 1], [0, 0, 0, 1]⟩
          = Event.recv 9 ([52, 51, 50, 49] : List Nat).length
              :: Event.send dec_service.accept_tag w :: Event.recv 4 r :: tail)
      ∧ (c_str [52, 51, 50, 49] ≠ dec_service.permitted_code →
        ∃ w, dec_server_session
            ⟨[RecvItem.data [52, 51, 50, 49]], [], fun _ => true, [0, 0, 0, 1], [0, 0, 0, 1]⟩
          = [Event.recv 9 ([52, 51, 50, 49] : List Nat).length, Event.send reject_tag w,
              Event.close, Event.exit 1]) :=
  handshake_gate ⟨[RecvItem.data [52, 51, 50, 49]], [], fun _ => true, [0, 0, 0, 1],
    [0, 0, 0, 1]⟩ [52, 51, 50, 49] [] rfl (by decide)

/-- Counterexample to C5 as stated: the first read delivers the five bytes "4321\0",
which are not exactly "4321"; the encryption server replies "enc", reads the key frame
"XYZ" and the payload frame "HI" and answers "DF". -/
theorem handshake_gate_counterexample :
    ([52, 51, 50, 49, 0] : List Nat) ≠ enc_service.permitted_code
      ∧ ([52, 51, 50, 49, 0] : List Nat).length ≤ 9
      ∧ enc_server_session
          ⟨[RecvItem.data [52, 51, 50, 49, 0], RecvItem.data [0, 0, 0, 3],
              RecvItem.data [88, 89, 90], RecvItem.data [0, 0, 0, 2], RecvItem.data [72, 73]],
            [], fun _ => true, [0, 0, 0, 0], [0, 0, 0, 0]⟩
        = [Event.recv 9 5, Event.send [101, 110, 99] 3, Event.recv 4 4, Event.recv 3 3,
            Event.recv 4 4, Event.recv 2 2, Event.transform [72, 73, 0] 2 [88, 89, 90, 0],
            Event.send [68, 70] 2, Event.exit 0] := by
  decide

theorem store_store (buf : List Nat) (t : Nat) (c1 c2 : List Nat) (ht : t ≤ buf.length) :
    store (store buf t c1) (t + c1.length) c2 = store buf t (c1 ++ c2) := by
  unfold store
  have h1 : (List.take t buf).length = t := by simp [ht]
  have e1 : List.take (t + c1.length) (List.take t buf ++ c1 ++ List.drop (t + c1.length) buf)
      = List.take t buf ++ c1 := by
    rw [List.take_append_eq_append_take]
    simp [h1]
  have e2 : List.drop (t + c1.length + c2.length)
        (List.take t buf ++ c1 ++ List.drop (t + c1.length) buf)
      = List.drop (t + (c1 ++ c2).length) buf := by
    rw [List.drop_append_eq_append_drop]
    simp only [List.length_append, h1]
    rw [List.drop_of_length_le (by simp [h1])]
    simp only [List.nil_append, List.drop_drop]
    try (congr 1; omega)
  rw [e1, e2]
  simp only [List.append_assoc]

theorem length_le_flatten_length (chunks : List (List Nat)) (h : ∀ c ∈ chunks, c ≠ []) :
    chunks.length ≤ chunks.flatten.length := by
  induction chunks with
  | nil => simp
  | cons c cs ih =>
    have hc : 0 < c.length := List.length_pos.2 (h c (by simp))
    have := ih (fun x hx => h x (by simp [hx]))
    simp only [List.flatten_cons, List.length_append, List.length_cons]
    omega

/-- The read loop on a body that arrives in the pieces `chunks`, each of at least one
byte: one `recv` per piece, and the loop is left with the pieces stored one after the
other from `total_read` on. -/
theorem recv_body_chunks (len : Nat) (rest : List RecvItem) :
    ∀ (chunks : List (List Nat)) (fuel : Nat) (buf : List Nat) (total_read : Nat),
      (∀ c ∈ chunks, c ≠ []) → total_read + chunks.flatten.length = len →
      total_read ≤ buf.length → chunks.length < fuel →
      ∃ events, recv_body len fuel (chunks.map RecvItem.data ++ rest) buf total_read
          = (events, some (store buf total_read chunks.flatten, rest))
        ∧ events.length = chunks.length
        ∧ ∀ e ∈ events, ∃ n r, e = Event.recv n r := by
  intro chunks
  induction chunks with
  | nil =>
    intro fuel buf total_read _ hsum _ hfuel
    obtain ⟨f, rfl⟩ : ∃ f, fuel = f + 1 := ⟨fuel - 1, by omega⟩
    have hlen : total_read = len := by simpa using hsum
    subst hlen
    refine ⟨[], ?_, rfl, by simp⟩
    simp [recv_body, store]
  | cons c cs ih =>
    intro fuel buf total_read hne hsum hbuf hfuel
    obtain ⟨f, rfl⟩ : ∃ f, fuel = f + 1 := ⟨fuel - 1, by omega⟩
    have hc : 0 < c.length := List.length_pos.2 (hne c (by simp))
    simp only [List.flatten_cons, List.length_append] at hsum
    have hlt : (total_read : Int) < (len : Int) := by omega
    have hreq : ((len : Int) - (total_read : Int)).toNat = len - total_read := by omega
    have hcl : c.length ≤ len - total_read := by omega
    obtain ⟨events, hev, hlen, hall⟩ := ih f (store buf total_read c) (total_read + c.length)
      (fun x hx => hne x (by simp [hx])) (by omega)
      (by unfold store; simp; omega) (by simpa using hfuel)
    refine ⟨Event.recv (len - total_read) c.length :: events, ?_, by simp [hlen], ?_⟩
    · rw [recv_body]
      simp only [hlt, if_true, hreq, List.map_cons, List.cons_append,
        recv_data_le c _ _ hcl, Int.toNat_ofNat]
      have h1 : ¬ ((c.length : Int) < 0) := by omega
      have h2 : ¬ ((c.length : Int) = 0) := by omega
      simp only [h1, h2, if_false]
      have hcast : (total_read : Int) + (c.length : Int) = ((total_read + c.length : Nat) : Int) := by
        push_cast; rfl
      rw [hcast, hev, store_store buf total_read c cs.flatten hbuf]
      simp
    · intro e he
      simp only [List.mem_cons] at he
      rcases he with rfl | he
      · exact ⟨_, _, rfl⟩
      · exact hall e he

theorem store_zeros (body : List Nat) :
    store (List.replicate (body.length + 1) 0) 0 body = c_buf body := by
  unfold store c_buf
  simp [List.drop_replicate]

theorem ntohl_store_be32 (g : List Nat) (n : Nat) (h : n < 4294967296) :
    ntohl (store g 0 (be32 n)) = n := by
  unfold store be32 ntohl
  simp only [List.take_zero, List.nil_append, List.cons_append, List.getD_cons_zero,
    List.getD_cons_succ]
  omega

theorem int_of_uint32_small (n : Nat) (h : (n : Int) + 1 ≤ INT_MAX) :
    int_of_uint32 n = (n : Int) := by
  unfold int_of_uint32
  unfold INT_MAX at h
  rw [if_pos (by omega)]

theorem after_transform_recvs (events rest : List Event)
    (h : ∀ e ∈ events, ∃ n r, e = Event.recv n r) :
    after_transform (events ++ rest) = after_transform rest := by
  induction events with
  | nil => rfl
  | cons e es ih =>
    obtain ⟨n, r, rfl⟩ := h e (by simp)
    simp only [List.cons_append, after_transform]
    exact ih (fun x hx => h x (by simp [hx]))

/-- The response loop when no call of `send` fails or returns zero: it puts on the
connection the `cipher_len - total_written` bytes that remain. -/
theorem written_send_result (cipher : List Nat) (cipher_len : Nat) :
    ∀ (fuel : Nat) (out : List SendItem) (total_written : Nat),
      (∀ item ∈ out, ∃ n, item = SendItem.accept n ∧ 0 < n) →
      total_written ≤ cipher_len → cipher_len - total_written < fuel →
      written (send_result cipher cipher_len fuel out total_written)
        = (cipher.drop total_written).take (cipher_len - total_written) := by
  intro fuel
  induction fuel with
  | zero => intro out t _ _ hf; omega
  | succ f ih =>
    intro out t hout ht hf
    rw [send_result]
    by_cases hlt : (t : Int) < (cipher_len : Int)
    · have hreq : ((cipher_len : Int) - (t : Int)).toNat = cipher_len - t := by omega
      simp only [hlt, if_true, hreq, Int.toNat_ofNat]
      -- the value returned by `send` is some `k` with `0 < k ≤ cipher_len - t`
      obtain ⟨k, out1, hsend, hk0, hk1, hout1⟩ : ∃ (k : Nat) (out1 : List SendItem),
          send out (cipher_len - t) = ((k : Int), out1) ∧ 0 < k ∧ k ≤ cipher_len - t
            ∧ ∀ item ∈ out1, ∃ n, item = SendItem.accept n ∧ 0 < n := by
        cases out with
        | nil => exact ⟨cipher_len - t, [], rfl, by omega, le_refl _, by simp⟩
        | cons item rest =>
          obtain ⟨n, rfl, hn⟩ := hout item (by simp)
          exact ⟨min n (cipher_len - t), rest, rfl, by omega, Nat.min_le_right _ _,
            fun x hx => hout x (by simp [hx])⟩
      rw [hsend]
      have h1 : ¬ ((k : Int) < 0) := by omega
      have h2 : ¬ ((k : Int) = 0) := by omega
      simp only [h1, h2, if_false, written, Int.toNat_ofNat]
      have hcast : (t : Int) + (k : Int) = ((t + k : Nat) : Int) := by push_cast; rfl
      rw [hcast, ih out1 (t + k) hout1 (by omega) (by omega)]
      rw [List.take_take, Nat.min_eq_left hk1]
      have hsplit : cipher_len - t = k + (cipher_len - (t + k)) := by omega
      rw [hsplit, List.take_add, List.drop_drop]
    · have hteq : t = cipher_len := by omega
      subst hteq
      simp [hlt, written]

/-- Parts 2 and 3 on a key frame whose length field arrives in one read and whose
body `K` arrives in the pieces `chunks`: the key buffer holds `K` and the session
goes on to the payload frame. -/
theorem session_key_frame (svc : Service) (env : Env) (out : List SendItem)
    (K : List Nat) (chunks : List (List Nat)) (rest : List RecvItem)
    (hne : ∀ c ∈ chunks, c ≠ []) (hflat : chunks.flatten = K)
    (hint : (K.length : Int) + 1 ≤ INT_MAX) (hok : env.calloc_ok (K.length + 1) = true) :
    ∃ events, (∀ e ∈ events, ∃ n r, e = Event.recv n r)
      ∧ session_key svc env
          (RecvItem.data (be32 K.length) :: (chunks.map RecvItem.data ++ rest)) out
        = Event.recv 4 4 :: events ++ session_payload svc env rest out (c_buf K) := by
  have h32 : K.length < 4294967296 := by unfold INT_MAX at hint; omega
  obtain ⟨events, hev, _, hall⟩ := recv_body_chunks K.length rest chunks (K.length + 1)
    (List.replicate (K.length + 1) 0) 0 hne (by simp [hflat]) (by simp)
    (by have := length_le_flatten_length chunks hne; rw [hflat] at this; omega)
  rw [hflat, store_zeros] at hev
  simp only [Nat.cast_zero] at hev
  refine ⟨events, hall, ?_⟩
  unfold session_key
  rw [recv_data_le (be32 K.length) _ 4 (by simp [be32])]
  simp only [ntohl_store_be32 _ _ h32, int_of_uint32_small _ hint, size_t_of_int_succ _ hint,
    hok, Int.toNat_ofNat, Nat.cast_zero, hev, hflat, store_zeros]
  have e1 : ¬ (((be32 K.length).length : Int) < 0) := by omega
  have e2 : ¬ ((K.length : Int) + 1 > INT_MAX) := by omega
  have e3 : ((be32 K.length).length : Int) = 4 := by simp [be32]
  have e4 : K.length < (c_buf K).length := by simp [c_buf]
  have e5 : (c_buf K).set K.length 0 = c_buf K := by simp [c_buf]
  simp [e1, e2, e3, e4, e5, hev]

/-- Parts 4 and 5 on a payload frame, as `session_key_frame`: the message buffer holds
the body `M` and the session goes on to the transform with `msg_len = len(M)`. -/
theorem session_payload_frame (svc : Service) (env : Env) (out : List SendItem)
    (key M : List Nat) (chunks : List (List Nat)) (rest : List RecvItem)
    (hne : ∀ c ∈ chunks, c ≠ []) (hflat : chunks.flatten = M)
    (hint : (M.length : Int) + 1 ≤ INT_MAX) (hok : env.calloc_ok (M.length + 1) = true) :
    ∃ events, (∀ e ∈ events, ∃ n r, e = Event.recv n r)
      ∧ session_payload svc env
          (RecvItem.data (be32 M.length) :: (chunks.map RecvItem.data ++ rest)) out key
        = Event.recv 4 4 :: events
            ++ session_transform svc env out key (c_buf M) M.length := by
  have h32 : M.length < 4294967296 := by unfold INT_MAX at hint; omega
  obtain ⟨events, hev, _, hall⟩ := recv_body_chunks M.length rest chunks (M.length + 1)
    (List.replicate (M.length + 1) 0) 0 hne (by simp [hflat]) (by simp)
    (by have := length_le_flatten_length chunks hne; rw [hflat] at this; omega)
  rw [hflat, store_zeros] at hev
  simp only [Nat.cast_zero] at hev
  refine ⟨events, hall, ?_⟩
  unfold session_payload
  rw [recv_data_le (be32 M.length) _ 4 (by simp [be32])]
  simp only [ntohl_store_be32 _ _ h32, int_of_uint32_small _ hint, size_t_of_int_succ _ hint,
    hok, Int.toNat_ofNat, Nat.cast_zero, hev, hflat, store_zeros]
  have e1 : ¬ (((be32 M.length).length : Int) < 0) := by omega
  have e2 : ¬ ((M.length : Int) + 1 > INT_MAX) := by omega
  have e3 : ((be32 M.length).length : Int) = 4 := by simp [be32]
  have e4 : M.length < (c_buf M).length := by simp [c_buf]
  have e5 : (c_buf M).set M.length 0 = c_buf M := by simp [c_buf]
  simp [e1, e2, e3, e4, e5, hev]

/-- The response of a session that has read its frames, when the transform returns
the buffer of a NUL-free string `R` and no call of `send` fails or returns zero: the
bytes of `R`. -/
theorem response_session_transform (svc : Service) (env : Env) (out : List SendItem)
    (key msg R : List Nat) (msg_len : Int)
    (htr : svc.transform env.calloc_ok msg msg_len key = Ret.ptr (c_buf R))
    (hR : ∀ b ∈ R, b ≠ 0)
    (hout : ∀ item ∈ out, ∃ n, item = SendItem.accept n ∧ 0 < n) :
    response (session_transform svc env out key msg msg_len) = R := by
  unfold session_transform response
  rw [htr]
  simp only [strlen_c_buf R hR, after_transform]
  have h := written_send_result (c_buf R) R.length (R.length + 1) out 0 hout (by omega)
    (by omega)
  simp only [Nat.cast_zero] at h
  rw [h]
  simp [c_buf]

theorem send_rest_mem (out : List SendItem) (len : Nat) :
    ∀ item ∈ (send out len).2, item ∈ out := by
  intro item h
  cases out with
  | nil => simp [send] at h
  | cons x rest =>
    cases x with
    | error => simp only [send] at h; simp [h]
    | accept n => simp only [send] at h; simp [h]

/-- The response of a whole session whose handshake is accepted and whose two frames
arrive complete, when the transform returns the buffer of a NUL-free string `R`. -/
theorem response_server_session (svc : Service) (env : Env) (K M R : List Nat)
    (kchunks mchunks : List (List Nat)) (rest : List RecvItem)
    (hcode : c_str svc.permitted_code = c_str (c_buf svc.permitted_code))
    (hcl : svc.permitted_code.length ≤ 9)
    (hsock : env.sock = RecvItem.data svc.permitted_code :: RecvItem.data (be32 K.length)
      :: (kchunks.map RecvItem.data
        ++ RecvItem.data (be32 M.length) :: (mchunks.map RecvItem.data ++ rest)))
    (hkne : ∀ c ∈ kchunks, c ≠ []) (hk : kchunks.flatten = K)
    (hmne : ∀ c ∈ mchunks, c ≠ []) (hm : mchunks.flatten = M)
    (hintK : (K.length : Int) + 1 ≤ INT_MAX) (hintM : (M.length : Int) + 1 ≤ INT_MAX)
    (hokK : env.calloc_ok (K.length + 1) = true) (hokM : env.calloc_ok (M.length + 1) = true)
    (hsend : ∀ item ∈ env.out, ∃ n, item = SendItem.accept n ∧ 0 < n)
    (htr : svc.transform env.calloc_ok (c_buf M) M.length (c_buf K) = Ret.ptr (c_buf R))
    (hR : ∀ b ∈ R, b ≠ 0) :
    response (server_session svc env) = R := by
  have h := server_session_handshake svc env svc.permitted_code _ hsock hcl
  rw [if_pos hcode] at h
  obtain ⟨ev1, hev1, hkey⟩ := session_key_frame svc env (send env.out 3).2 K kchunks
    (RecvItem.data (be32 M.length) :: (mchunks.map RecvItem.data ++ rest)) hkne hk hintK hokK
  obtain ⟨ev2, hev2, hpay⟩ := session_payload_frame svc env (send env.out 3).2 (c_buf K) M
    mchunks rest hmne hm hintM hokM
  rw [hkey, hpay] at h
  rw [h]
  have hresp : response (Event.recv 9 svc.permitted_code.length
        :: Event.send svc.accept_tag (send env.out 3).1
        :: (Event.recv 4 4 :: ev1 ++ (Event.recv 4 4 :: ev2
          ++ session_transform svc env (send env.out 3).2 (c_buf K) (c_buf M) M.length)))
      = response (session_transform svc env (send env.out 3).2 (c_buf K) (c_buf M)
          M.length) := by
    unfold response
    congr 1
    show after_transform (ev1 ++ (Event.recv 4 4 :: ev2 ++ _)) = _
    rw [after_transform_recvs ev1 _ hev1]
    show after_transform (ev2 ++ _) = _
    rw [after_transform_recvs ev2 _ hev2]
  rw [hresp]
  exact response_session_transform svc env _ (c_buf K) (c_buf M) R M.length htr hR
    (fun item hi => hsend item (send_rest_mem env.out 3 item hi))

/-- C6 (result segment length), as the code has it. For every key `K` and payload
`M` made of Alphabet-27 symbols with `len(K) ≥ len(M)` (lengths fitting `int`,
allocations succeeding) whose frames a session fully receives after an accepted
handshake, in whatever pieces the bodies arrive, and when no call of `send` fails or
returns zero, the result written back has exactly `len(M)` bytes, the declared length
of the payload frame. -/
theorem result_segment_length (env : Env) (code K M : List Nat)
    (kchunks mchunks : List (List Nat)) (rest : List RecvItem)
    (hsock : env.sock = RecvItem.data code :: RecvItem.data (be32 K.length)
      :: (kchunks.map RecvItem.data
        ++ RecvItem.data (be32 M.length) :: (mchunks.map RecvItem.data ++ rest)))
    (hkne : ∀ c ∈ kchunks, c ≠ []) (hk : kchunks.flatten = K)
    (hmne : ∀ c ∈ mchunks, c ≠ []) (hm : mchunks.flatten = M)
    (hK : ∀ b ∈ K, alphabet27 b) (hM : ∀ b ∈ M, alphabet27 b)
    (hlen : M.length ≤ K.length) (hint : (K.length : Int) + 1 ≤ INT_MAX)
    (hokK : env.calloc_ok (K.length + 1) = true) (hokM : env.calloc_ok (M.length + 1) = true)
    (hsend : ∀ item ∈ env.out, ∃ n, item = SendItem.accept n ∧ 0 < n) :
    (code = enc_service.permitted_code →
        (response (enc_server_session env)).length = M.length)
      ∧ (code = dec_service.permitted_code →
        (response (dec_server_session env)).length = M.length) := by
  have hintM : (M.length : Int) + 1 ≤ INT_MAX := by omega
  have hl : ∀ f : Nat → Nat → Nat, (List.zipWith f M K).length = M.length := by
    intro f
    simp [List.length_zipWith, hlen]
  constructor
  · intro hc
    subst hc
    have h := response_server_session enc_service env K M (List.zipWith encrypt_byte M K)
      kchunks mchunks rest (by decide) (by decide) hsock hkne hk hmne hm hint hintM hokK hokM
      hsend (encrypt_msg_alphabet27 env.calloc_ok M K hM hlen hintM hokM)
      (fun b hb => alphabet27_ne_zero b
        (zipWith_mem_alphabet27 encrypt_byte encrypt_byte_alphabet27 M K hM hK b hb))
    unfold enc_server_session
    rw [h, hl]
  · intro hc
    subst hc
    have h := response_server_session dec_service env K M (List.zipWith decrypt_byte M K)
      kchunks mchunks rest (by decide) (by decide) hsock hkne hk hmne hm hint hintM hokK hokM
      hsend (decrypt_msg_alphabet27 env.calloc_ok M K hM hlen hintM hokM)
      (fun b hb => alphabet27_ne_zero b
        (zipWith_mem_alphabet27 decrypt_byte decrypt_byte_alphabet27 M K hM hK b hb))
    unfold dec_server_session
    rw [h, hl]

/-- Witness of C6: the key "XYZ" arrives as "XY" then "Z", the payload "HI" in one
piece, and the first call of `send` of the response takes one byte only. -/
theorem result_segment_length_witness :
    ([52, 51, 50, 49] = enc_service.permitted_code →
        (response (enc_server_session
          ⟨[RecvItem.data [52, 51, 50, 49], RecvItem.data [0, 0, 0, 3], RecvItem.data [88, 89],
              RecvItem.data [90], RecvItem.data [0, 0, 0, 2], RecvItem.data [72, 73]],
            [SendItem.accept 3, SendItem.accept 1], fun _ => true, [9, 9, 9, 9],
            [9, 9, 9, 9]⟩)).length = ([72, 73] : List Nat).length)
      ∧ ([52, 51, 50, 49] = dec_service.permitted_code →
        (response (dec_server_session
          ⟨[RecvItem.data [52, 51, 50, 49], RecvItem.data [0, 0, 0, 3], RecvItem.data [88, 89],
              RecvItem.data [90], RecvItem.data [0, 0, 0, 2], RecvItem.data [72, 73]],
            [SendItem.accept 3, SendItem.accept 1], fun _ => true, [9, 9, 9, 9],
            [9, 9, 9, 9]⟩)).length = ([72, 73] : List Nat).length) :=
  result_segment_length
    ⟨[RecvItem.data [52, 51, 50, 49], RecvItem.data [0, 0, 0, 3], RecvItem.data [88, 89],
        RecvItem.data [90], RecvItem.data [0, 0, 0, 2], RecvItem.data [72, 73]],
      [SendItem.accept 3, SendItem.accept 1], fun _ => true, [9, 9, 9, 9], [9, 9, 9, 9]⟩
    [52, 51, 50, 49] [88, 89, 90] [72, 73] [[88, 89], [90]] [[72, 73]] [] rfl (by decide) rfl
    (by decide) rfl (by decide) (by decide) (by decide) (by decide) rfl rfl (by simp)

/-- Counterexample to C6 as stated: after an accepted handshake and the key frame "A",
the payload frame declares one byte and its body is the byte 0; the session receives
both frames in full, calls `encrypt_msg` and writes back no byte at all. -/
theorem result_segment_length_counterexample :
    enc_server_session
        ⟨[RecvItem.data [52, 51, 50, 49], RecvItem.data [0, 0, 0, 1], RecvItem.data [65],
            RecvItem.data [0, 0, 0, 1], RecvItem.data [0]],
          [], fun _ => true, [0, 0, 0, 0], [0, 0, 0, 0]⟩
      = [Event.recv 9 4, Event.send [101, 110, 99] 3, Event.recv 4 4, Event.recv 1 1,
          Event.recv 4 4, Event.recv 1 1, Event.transform [0, 0] 1 [65, 0], Event.exit 0]
      ∧ ntohl [0, 0, 0, 1] = 1
      ∧ (response (enc_server_session
        ⟨[RecvItem.data [52, 51, 50, 49], RecvItem.data [0, 0, 0, 1], RecvItem.data [65],
            RecvItem.data [0, 0, 0, 1], RecvItem.data [0]],
          [], fun _ => true, [0, 0, 0, 0], [0, 0, 0, 0]⟩)).length = 0 := by
  decide

/-- C9 (partial I/O resilience, frame body). For every declared body length `n` and
every delivery of the `n` body bytes as reads of at least one byte each, the read loop
of the session is left normally, after calls of `recv` only, with the buffer holding
exactly those bytes in order before its terminator and the connection at the byte
after the body; the buffer is the one obtained when the body arrives in a single
read. -/
theorem frame_body_partial_reads (body : List Nat) (chunks : List (List Nat))
    (rest : List RecvItem) (hne : ∀ c ∈ chunks, c ≠ []) (hflat : chunks.flatten = body) :
    (∃ events, recv_body body.length (body.length + 1) (chunks.map RecvItem.data ++ rest)
          (List.replicate (body.length + 1) 0) 0 = (events, some (c_buf body, rest))
        ∧ ∀ e ∈ events, ∃ n r, e = Event.recv n r)
      ∧ (∃ events sock, recv_body body.length (body.length + 1) (RecvItem.data body :: rest)
          (List.replicate (body.length + 1) 0) 0 = (events, some (c_buf body, sock))) := by
  constructor
  · obtain ⟨events, hev, _, hall⟩ := recv_body_chunks body.length rest chunks
      (body.length + 1) (List.replicate (body.length + 1) 0) 0 hne (by simp [hflat]) (by simp)
      (by have := length_le_flatten_length chunks hne; rw [hflat] at this; omega)
    rw [hflat, store_zeros] at hev
    simp only [Nat.cast_zero] at hev
    exact ⟨events, hev, hall⟩
  · cases body with
    | nil => exact ⟨[], _, rfl⟩
    | cons b bs =>
      obtain ⟨events, hev, _, _⟩ := recv_body_chunks (b :: bs).length rest [b :: bs]
        ((b :: bs).length + 1) (List.replicate ((b :: bs).length + 1) 0) 0 (by simp) (by simp)
        (by simp) (by simp)
      rw [show [b :: bs].flatten = b :: bs by simp, store_zeros] at hev
      simp only [Nat.cast_zero] at hev
      exact ⟨events, rest, hev⟩

/-- Witness of C9: the body "HELLO" arrives as "H", "EL", "LO". -/
theorem frame_body_partial_reads_witness :
    (∃ events, recv_body ([72, 69, 76, 76, 79] : List Nat).length
          (([72, 69, 76, 76, 79] : List Nat).length + 1)
          ([[72], [69, 76], [76, 79]].map RecvItem.data ++ [RecvItem.data [0, 0, 0, 1]])
          (List.replicate (([72, 69, 76, 76, 79] : List Nat).length + 1) 0) 0
          = (events, some (c_buf [72, 69, 76, 76, 79], [RecvItem.data [0, 0, 0, 1]]))
        ∧ ∀ e ∈ events, ∃ n r, e = Event.recv n r)
      ∧ (∃ events sock, recv_body ([72, 69, 76, 76, 79] : List Nat).length
          (([72, 69, 76, 76, 79] : List Nat).length + 1)
          (RecvItem.data [72, 69, 76, 76, 79] :: [RecvItem.data [0, 0, 0, 1]])
          (List.replicate (([72, 69, 76, 76, 79] : List Nat).length + 1) 0) 0
          = (events, some (c_buf [72, 69, 76, 76, 79], sock))) :=
  frame_body_partial_reads [72, 69, 76, 76, 79] [[72], [69, 76], [76, 79]]
    [RecvItem.data [0, 0, 0, 1]] (by decide) rfl

/-- C10 (premature close), evaluated where it fails: the peer sends "4321" and closes.
The read of the key frame's length field returns zero bytes, which Part 2 does not
test; with the uninitialised `nbo_key_len` and `nbo_msg_len` holding zero the session
goes through both frames, calls the transform on an empty message and exits with
code 0. Both servers do so. -/
theorem premature_close_reaches_transform :
    enc_server_session
        ⟨[RecvItem.data [52, 51, 50, 49]], [], fun _ => true, [0, 0, 0, 0], [0, 0, 0, 0]⟩
      = [Event.recv 9 4, Event.send [101, 110, 99] 3, Event.recv 4 0, Event.recv 4 0,
          Event.transform [0] 0 [0], Event.exit 0]
      ∧ calls_transform (enc_server_session
          ⟨[RecvItem.data [52, 51, 50, 49]], [], fun _ => true, [0, 0, 0, 0], [0, 0, 0, 0]⟩)
        = true
      ∧ dec_server_session
          ⟨[RecvItem.data [49, 50, 51, 52]], [], fun _ => true, [0, 0, 0, 0], [0, 0, 0, 0]⟩
        = [Event.recv 9 4, Event.send [100, 101, 99] 3, Event.recv 4 0, Event.recv 4 0,
            Event.transform [0] 0 [0], Event.exit 0] := by
  decide

/-! ## Theorems on the requester -/

/-- C7 (requester alphabet validation), evaluated where it fails: for the file
content "A\\tB\\n", `parse_valid_file` returns the buffer "A\\tB", whose second character
is a tab and not in Alphabet-27; with such a key and such a plaintext `enc_client`
goes on to create its socket. -/
theorem parse_valid_file_admits_tab :
    parse_valid_file ⟨some [65, 9, 66, 10], true, true, 4⟩ = Ret.ptr [65, 9, 66, 0, 0]
      ∧ ¬ alphabet27 9
      ∧ enc_client_start 4 ⟨some [65, 9, 66, 10], true, true, 4⟩
          ⟨some [72, 9, 10], true, true, 3⟩ 5000
        = ClientStart.network [65, 9, 66, 0, 0] [72, 9, 0, 0] 5000 := by
  decide

/-- C8 (requester key-length check). For every validated key buffer and payload
buffer, whenever `strlen(key) < strlen(payload)` the client exits with code 1 without
reaching `socket()`; and the client reaches the network phase only with
`strlen(key) ≥ strlen(payload)` (and with those two buffers). -/
theorem key_length_check (argc : Nat) (key_file text_file : FileEnv) (port_arg : Int)
    (key_buffer text_buffer : List Nat) (key_len text_len : Nat)
    (hkey : parse_valid_file key_file = Ret.ptr key_buffer)
    (htext : parse_valid_file text_file = Ret.ptr text_buffer)
    (hkl : strlen key_buffer = some key_len) (htl : strlen text_buffer = some text_len) :
    (key_len < text_len →
        enc_client_start argc key_file text_file port_arg = ClientStart.exit 1)
      ∧ (∀ kb tb p, enc_client_start argc key_file text_file port_arg
            = ClientStart.network kb tb p →
          text_len ≤ key_len ∧ kb = key_buffer ∧ tb = text_buffer) := by
  unfold enc_client_start
  simp only [hkey, htext, hkl, htl]
  constructor
  · intro hlt
    by_cases ha : argc < 4
    · simp [ha]
    · simp [ha, hlt]
  · intro kb tb p h
    by_cases ha : argc < 4
    · simp [ha] at h
    · by_cases hlt : key_len < text_len
      · simp [ha, hlt] at h
      · by_cases hp : port_arg ≤ 0
        · simp [ha, hlt, hp] at h
        · simp only [ha, hlt, hp, if_false, ClientStart.network.injEq] at h
          exact ⟨by omega, h.1.symm, h.2.1.symm⟩

/-- Witness of C8: the key file "AB\\n" and the plaintext file "ABC\\n". -/
theorem key_length_check_witness :
    (2 < 3 →
        enc_client_start 4 ⟨some [65, 66, 10], true, true, 3⟩
          ⟨some [65, 66, 67, 10], true, true, 4⟩ 5000 = ClientStart.exit 1)
      ∧ (∀ kb tb p, enc_client_start 4 ⟨some [65, 66, 10], true, true, 3⟩
            ⟨some [65, 66, 67, 10], true, true, 4⟩ 5000 = ClientStart.network kb tb p →
          3 ≤ 2 ∧ kb = [65, 66, 0, 0] ∧ tb = [65, 66, 67, 0, 0]) :=
  key_length_check 4 ⟨some [65, 66, 10], true, true, 3⟩ ⟨some [65, 66, 67, 10], true, true, 4⟩
    5000 [65, 66, 0, 0] [65, 66, 67, 0, 0] 2 3 (by decide) (by decide) (by decide) (by decide)

/-! ## Theorems on the length field -/

theorem be32_of_bytes (b0 b1 b2 b3 : Nat) (h0 : b0 < 256) (h1 : b1 < 256) (h2 : b2 < 256)
    (h3 : b3 < 256) : be32 (b0 * 16777216 + b1 * 65536 + b2 * 256 + b3) = [b0, b1, b2, b3] := by
  unfold be32
  have e0 : (b0 * 16777216 + b1 * 65536 + b2 * 256 + b3) / 16777216 % 256 = b0 := by omega
  have e1 : (b0 * 16777216 + b1 * 65536 + b2 * 256 + b3) / 65536 % 256 = b1 := by omega
  have e2 : (b0 * 16777216 + b1 * 65536 + b2 * 256 + b3) / 256 % 256 = b2 := by omega
  have e3 : (b0 * 16777216 + b1 * 65536 + b2 * 256 + b3) % 256 = b3 := by omega
  rw [e0, e1, e2, e3]

/-- The read loop on a body of which the peer delivers fewer bytes than declared
before it closes: after the reads the process closes the connection and exits with
code 1. -/
theorem recv_body_short (len : Nat) :
    ∀ (chunks : List (List Nat)) (fuel : Nat) (buf : List Nat) (total_read : Nat),
      (∀ c ∈ chunks, c ≠ []) → total_read + chunks.flatten.length < len →
      chunks.length < fuel →
      ∃ events, recv_body len fuel (chunks.map RecvItem.data) buf total_read
          = (events ++ [Event.close, Event.exit 1], none)
        ∧ ∀ e ∈ events, ∃ n r, e = Event.recv n r := by
  intro chunks
  induction chunks with
  | nil =>
    intro fuel buf total_read _ hsum hfuel
    obtain ⟨f, rfl⟩ : ∃ f, fuel = f + 1 := ⟨fuel - 1, by omega⟩
    simp only [List.flatten_nil, List.length_nil, Nat.add_zero] at hsum
    have hlt : (total_read : Int) < (len : Int) := by omega
    refine ⟨[Event.recv ((len : Int) - (total_read : Int)).toNat 0], ?_, ?_⟩
    · rw [recv_body]
      simp [hlt, recv]
    · intro e he
      simp only [List.mem_singleton] at he
      exact ⟨_, _, he⟩
  | cons c cs ih =>
    intro fuel buf total_read hne hsum hfuel
    obtain ⟨f, rfl⟩ : ∃ f, fuel = f + 1 := ⟨fuel - 1, by omega⟩
    have hc : 0 < c.length := List.length_pos.2 (hne c (by simp))
    simp only [List.flatten_cons, List.length_append] at hsum
    have hlt : (total_read : Int) < (len : Int) := by omega
    have hreq : ((len : Int) - (total_read : Int)).toNat = len - total_read := by omega
    have hcl : c.length ≤ len - total_read := by omega
    obtain ⟨events, hev, hall⟩ := ih f (store buf total_read c) (total_read + c.length)
      (fun x hx => hne x (by simp [hx])) (by omega) (by simpa using hfuel)
    refine ⟨Event.recv (len - total_read) c.length :: events, ?_, ?_⟩
    · rw [recv_body]
      simp only [hlt, if_true, hreq, List.map_cons, recv_data_le c _ _ hcl, Int.toNat_ofNat]
      have h1 : ¬ ((c.length : Int) < 0) := by omega
      have h2 : ¬ ((c.length : Int) = 0) := by omega
      simp only [h1, h2, if_false]
      have hcast : (total_read : Int) + (c.length : Int)
          = ((total_read + c.length : Nat) : Int) := by
        push_cast; rfl
      rw [hcast, hev]
      simp
    · intro e he
      simp only [List.mem_cons] at he
      rcases he with rfl | he
      · exact ⟨_, _, rfl⟩
      · exact hall e he

/-- Parts 2 and 3 on a key frame of which the peer delivers fewer body bytes than
declared before it closes. -/
theorem session_key_short (svc : Service) (env : Env) (out : List SendItem) (v : Nat)
    (chunks : List (List Nat)) (hne : ∀ c ∈ chunks, c ≠ [])
    (hshort : chunks.flatten.length < v)
    (hint : (v : Int) + 1 ≤ INT_MAX) (hok : env.calloc_ok (v + 1) = true) :
    ∃ events, (∀ e ∈ events, ∃ n r, e = Event.recv n r)
      ∧ session_key svc env (RecvItem.data (be32 v) :: chunks.map RecvItem.data) out
        = Event.recv 4 4 :: events ++ [Event.close, Event.exit 1] := by
  have h32 : v < 4294967296 := by unfold INT_MAX at hint; omega
  obtain ⟨events, hev, hall⟩ := recv_body_short v chunks (v + 1)
    (List.replicate (v + 1) 0) 0 hne (by omega)
    (by have := length_le_flatten_length chunks hne; omega)
  simp only [Nat.cast_zero] at hev
  refine ⟨events, hall, ?_⟩
  unfold session_key
  rw [recv_data_le (be32 v) _ 4 (by simp [be32])]
  simp only [ntohl_store_be32 _ _ h32, int_of_uint32_small _ hint, size_t_of_int_succ _ hint,
    hok, Int.toNat_ofNat, hev]
  have e1 : ¬ (((be32 v).length : Int) < 0) := by omega
  have e2 : ¬ ((v : Int) + 1 > INT_MAX) := by omega
  have e3 : ((be32 v).length : Int) = 4 := by simp [be32]
  simp [e1, e2, e3]

/-- Parts 4 and 5 on a payload frame of which the peer delivers fewer body bytes than
declared before it closes. -/
theorem session_payload_short (svc : Service) (env : Env) (out : List SendItem)
    (key : List Nat) (v : Nat)
    (chunks : List (List Nat)) (hne : ∀ c ∈ chunks, c ≠ [])
    (hshort : chunks.flatten.length < v)
    (hint : (v : Int) + 1 ≤ INT_MAX) (hok : env.calloc_ok (v + 1) = true) :
    ∃ events, (∀ e ∈ events, ∃ n r, e = Event.recv n r)
      ∧ session_payload svc env (RecvItem.data (be32 v) :: chunks.map RecvItem.data) out key
        = Event.recv 4 4 :: events ++ [Event.close, Event.exit 1] := by
  have h32 : v < 4294967296 := by unfold INT_MAX at hint; omega
  obtain ⟨events, hev, hall⟩ := recv_body_short v chunks (v + 1)
    (List.replicate (v + 1) 0) 0 hne (by omega)
    (by have := length_le_flatten_length chunks hne; omega)
  simp only [Nat.cast_zero] at hev
  refine ⟨events, hall, ?_⟩
  unfold session_payload
  rw [recv_data_le (be32 v) _ 4 (by simp [be32])]
  simp only [ntohl_store_be32 _ _ h32, int_of_uint32_small _ hint, size_t_of_int_succ _ hint,
    hok, Int.toNat_ofNat, hev]
  have e1 : ¬ (((be32 v).length : Int) < 0) := by omega
  have e2 : ¬ ((v : Int) + 1 > INT_MAX) := by omega
  have e3 : ((be32 v).length : Int) = 4 := by simp [be32]
  simp [e1, e2, e3]

/-- C11 (frame length), as the code has it. The length field is decoded big-endian
into a signed `int`: for every 4-byte length field `b0 b1 b2 b3` whose unsigned value
`v = b0*2^24 + b1*2^16 + b2*2^8 + b3` lies in `0 .. 2^31 - 2` (allocation
succeeding), a session requires exactly `v` body bytes before proceeding: for the
key frame as for the payload frame, when `v` body bytes arrive, in whatever pieces, it
goes on to the next part with them, and when the peer closes after fewer than `v`
bytes it closes and exits with code 1. -/
theorem frame_length_field (svc : Service) (env : Env) (out : List SendItem)
    (key : List Nat) (b0 b1 b2 b3 : Nat) (chunks : List (List Nat))
    (h0 : b0 < 256) (h1 : b1 < 256) (h2 : b2 < 256) (h3 : b3 < 256)
    (hv : ((b0 * 16777216 + b1 * 65536 + b2 * 256 + b3 : Nat) : Int) + 1 ≤ INT_MAX)
    (hok : env.calloc_ok (b0 * 16777216 + b1 * 65536 + b2 * 256 + b3 + 1) = true)
    (hne : ∀ c ∈ chunks, c ≠ []) :
    (chunks.flatten.length = b0 * 16777216 + b1 * 65536 + b2 * 256 + b3 →
        ∀ rest,
          (∃ events, (∀ e ∈ events, ∃ n r, e = Event.recv n r)
            ∧ session_key svc env
                (RecvItem.data [b0, b1, b2, b3] :: (chunks.map RecvItem.data ++ rest)) out
              = Event.recv 4 4 :: events
                  ++ session_payload svc env rest out (c_buf chunks.flatten))
          ∧ (∃ events, (∀ e ∈ events, ∃ n r, e = Event.recv n r)
            ∧ session_payload svc env
                (RecvItem.data [b0, b1, b2, b3] :: (chunks.map RecvItem.data ++ rest)) out key
              = Event.recv 4 4 :: events
                  ++ session_transform svc env out key (c_buf chunks.flatten)
                      chunks.flatten.length))
      ∧ (chunks.flatten.length < b0 * 16777216 + b1 * 65536 + b2 * 256 + b3 →
          (∃ events, (∀ e ∈ events, ∃ n r, e = Event.recv n r)
            ∧ session_key svc env
                (RecvItem.data [b0, b1, b2, b3] :: chunks.map RecvItem.data) out
              = Event.recv 4 4 :: events ++ [Event.close, Event.exit 1])
          ∧ (∃ events, (∀ e ∈ events, ∃ n r, e = Event.recv n r)
            ∧ session_payload svc env
                (RecvItem.data [b0, b1, b2, b3] :: chunks.map RecvItem.data) out key
              = Event.recv 4 4 :: events ++ [Event.close, Event.exit 1])) := by
  have hbe := be32_of_bytes b0 b1 b2 b3 h0 h1 h2 h3
  constructor
  · intro hlen rest
    rw [← hlen] at hv hok hbe
    have hkey := session_key_frame svc env out chunks.flatten chunks rest hne rfl hv hok
    have hpay := session_payload_frame svc env out key chunks.flatten chunks rest hne rfl
      hv hok
    rw [hbe] at hkey hpay
    exact ⟨hkey, hpay⟩
  · intro hlt
    rw [← hbe]
    exact ⟨session_key_short svc env out _ chunks hne hlt hv hok,
      session_payload_short svc env out key _ chunks hne hlt hv hok⟩

/-- Witness of C11: the length field 0 0 0 3 of the encryption server, with the body
delivered as "XY" then "Z". -/
theorem frame_length_field_witness :
    (([[88, 89], [90]] : List (List Nat)).flatten.length = 0 * 16777216 + 0 * 65536 + 0 * 256 + 3 →
        ∀ rest,
          (∃ events, (∀ e ∈ events, ∃ n r, e = Event.recv n r)
            ∧ session_key enc_service ⟨[], [], fun _ => true, [7, 7, 7, 7], [7, 7, 7, 7]⟩
                (RecvItem.data [0, 0, 0, 3]
                  :: (([[88, 89], [90]] : List (List Nat)).map RecvItem.data ++ rest)) []
              = Event.recv 4 4 :: events
                  ++ session_payload enc_service
                      ⟨[], [], fun _ => true, [7, 7, 7, 7], [7, 7, 7, 7]⟩ rest []
                      (c_buf ([[88, 89], [90]] : List (List Nat)).flatten))
          ∧ (∃ events, (∀ e ∈ events, ∃ n r, e = Event.recv n r)
            ∧ session_payload enc_service ⟨[], [], fun _ => true, [7, 7, 7, 7], [7, 7, 7, 7]⟩
                (RecvItem.data [0, 0, 0, 3]
                  :: (([[88, 89], [90]] : List (List Nat)).map RecvItem.data ++ rest)) []
                (c_buf [75, 69, 89])
              = Event.recv 4 4 :: events
                  ++ session_transform enc_service
                      ⟨[], [], fun _ => true, [7, 7, 7, 7], [7, 7, 7, 7]⟩ [] (c_buf [75, 69, 89])
                      (c_buf ([[88, 89], [90]] : List (List Nat)).flatten)
                      ([[88, 89], [90]] : List (List Nat)).flatten.length))
      ∧ (([[88, 89], [90]] : List (List Nat)).flatten.length
            < 0 * 16777216 + 0 * 65536 + 0 * 256 + 3 →
          (∃ events, (∀ e ∈ events, ∃ n r, e = Event.recv n r)
            ∧ session_key enc_service ⟨[], [], fun _ => true, [7, 7, 7, 7], [7, 7, 7, 7]⟩
                (RecvItem.data [0, 0, 0, 3]
                  :: ([[88, 89], [90]] : List (List Nat)).map RecvItem.data) []
              = Event.recv 4 4 :: events ++ [Event.close, Event.exit 1])
          ∧ (∃ events, (∀ e ∈ events, ∃ n r, e = Event.recv n r)
            ∧ session_payload enc_service ⟨[], [], fun _ => true, [7, 7, 7, 7], [7, 7, 7, 7]⟩
                (RecvItem.data [0, 0, 0, 3]
                  :: ([[88, 89], [90]] : List (List Nat)).map RecvItem.data) []
                (c_buf [75, 69, 89])
              = Event.recv 4 4 :: events ++ [Event.close, Event.exit 1])) :=
  frame_length_field enc_service ⟨[], [], fun _ => true, [7, 7, 7, 7], [7, 7, 7, 7]⟩ []
    (c_buf [75, 69, 89]) 0 0 0 3 [[88, 89], [90]] (by decide) (by decide) (by decide)
    (by decide) (by decide) rfl (by decide)

/-- Counterexample to C11 as stated, on the encryption server with an allocator that
refuses requests of 4 GiB and more. The length field 80 00 00 00 has the unsigned
value 2^31: the session reads no body byte, closes and exits with code 1, although three
body bytes are there. The length fields FF FF FF FF and 7F FF FF FF have the values
2^32 - 1 and 2^31 - 1: the session reads no body byte and runs into undefined
behaviour (`key[-1]` is written, `key_len + 1` overflows). -/
theorem frame_length_field_counterexample :
    int_of_uint32 (ntohl [128, 0, 0, 0]) = -2147483648
      ∧ enc_server_session
          ⟨[RecvItem.data [52, 51, 50, 49], RecvItem.data [128, 0, 0, 0],
              RecvItem.data [88, 89, 90]],
            [], fun n => decide (n < 4294967296), [0, 0, 0, 0], [0, 0, 0, 0]⟩
        = [Event.recv 9 4, Event.send [101, 110, 99] 3, Event.recv 4 4, Event.close,
            Event.exit 1]
      ∧ enc_server_session
          ⟨[RecvItem.data [52, 51, 50, 49], RecvItem.data [255, 255, 255, 255],
              RecvItem.data [88, 89, 90]],
            [], fun n => decide (n < 4294967296), [0, 0, 0, 0], [0, 0, 0, 0]⟩
        = [Event.recv 9 4, Event.send [101, 110, 99] 3, Event.recv 4 4, Event.undefined]
      ∧ enc_server_session
          ⟨[RecvItem.data [52, 51, 50, 49], RecvItem.data [127, 255, 255, 255],
              RecvItem.data [88, 89, 90]],
            [], fun n => decide (n < 4294967296), [0, 0, 0, 0], [0, 0, 0, 0]⟩
        = [Event.recv 9 4, Event.send [101, 110, 99] 3, Event.recv 4 4, Event.undefined] := by
  decide

/-- C12 (framing of the length field), evaluated where it fails. The key frame "XYZ"
and the payload frame "HI" reach the encryption server once with the key length field
0 0 0 3 in a single read, once with it in two reads of two bytes. In a single read the
session answers "DF". In two reads Part 2 calls `recv` once and takes the two missing
bytes from the uninitialised `nbo_key_len`: holding zeros it declares the length 0,
and the session ends without a transform; holding 0 0 0 5 it declares the length 5,
the rest of the field is read as the start of the key, and the session answers the two
bytes 7 and 11. On the client, a `send` of the key length field that takes two bytes only
is not completed: the key body follows the first two bytes of the field. -/
theorem length_field_single_call :
    enc_server_session
        ⟨[RecvItem.data [52, 51, 50, 49], RecvItem.data [0, 0, 0, 3], RecvItem.data [88, 89, 90],
            RecvItem.data [0, 0, 0, 2], RecvItem.data [72, 73]],
          [], fun n => decide (n < 4294967296), [0, 0, 0, 0], [0, 0, 0, 0]⟩
      = [Event.recv 9 4, Event.send [101, 110, 99] 3, Event.recv 4 4, Event.recv 3 3,
          Event.recv 4 4, Event.recv 2 2, Event.transform [72, 73, 0] 2 [88, 89, 90, 0],
          Event.send [68, 70] 2, Event.exit 0]
      ∧ enc_server_session
          ⟨[RecvItem.data [52, 51, 50, 49], RecvItem.data [0, 0], RecvItem.data [0, 3],
              RecvItem.data [88, 89, 90], RecvItem.data [0, 0, 0, 2], RecvItem.data [72, 73]],
            [], fun n => decide (n < 4294967296), [0, 0, 0, 0], [0, 0, 0, 0]⟩
        = [Event.recv 9 4, Event.send [101, 110, 99] 3, Event.recv 4 2, Event.recv 4 2,
            Event.recv 196608 3, Event.recv 196605 4, Event.recv 196601 2,
            Event.recv 196599 0, Event.close, Event.exit 1]
      ∧ enc_server_session
          ⟨[RecvItem.data [52, 51, 50, 49], RecvItem.data [0, 0], RecvItem.data [0, 3],
              RecvItem.data [88, 89, 90], RecvItem.data [0, 0, 0, 2], RecvItem.data [72, 73]],
            [], fun n => decide (n < 4294967296), [0, 0, 0, 5], [0, 0, 0, 0]⟩
        = [Event.recv 9 4, Event.send [101, 110, 99] 3, Event.recv 4 2, Event.recv 5 2,
            Event.recv 3 3, Event.recv 4 4, Event.recv 2 2,
            Event.transform [72, 73, 0] 2 [0, 3, 88, 89, 90, 0], Event.send [7, 11] 2,
            Event.exit 0]
      ∧ client_written (enc_client_main 4 ⟨some [88, 89, 90, 10], true, true, 4⟩
          ⟨some [72, 73, 10], true, true, 3⟩ 5000
          ⟨true, true, [RecvItem.data [101, 110, 99], RecvItem.data [68, 70]],
            [SendItem.accept 4, SendItem.accept 2]⟩)
        = [52, 51, 50, 49] ++ [0, 0] ++ [88, 89, 90] ++ [0, 0, 0, 2] ++ [72, 73] := by
  decide

/-! ## Theorems on the exchange of the requester -/

/-- The frames start with the `send` of the key length field. -/
theorem client_frames_starts_with_send (sock : List RecvItem) (out : List SendItem)
    (key_buffer text_buffer : List Nat) (key_len text_len : Nat) :
    ∃ w tail, client_frames sock out key_buffer text_buffer key_len text_len
      = ClientEvent.send (be32 (key_len % 4294967296)) w :: tail := by
  unfold client_frames
  generalize send out 4 = s1
  obtain ⟨bw, out1⟩ := s1
  simp only
  split
  · exact ⟨_, _, rfl⟩
  · generalize client_send_body key_buffer key_len (key_len + 1) out1 0 = r1
    obtain ⟨ev1, o1⟩ := r1
    cases o1 with
    | none => exact ⟨_, _, rfl⟩
    | some out2 =>
      simp only
      generalize send out2 4 = s2
      obtain ⟨bw2, out3⟩ := s2
      simp only
      split
      · exact ⟨_, _, rfl⟩
      · generalize client_send_body text_buffer text_len (text_len + 1) out3 0 = r2
        obtain ⟨ev2, o2⟩ := r2
        cases o2 with
        | none => exact ⟨_, _, rfl⟩
        | some out4 => exact ⟨_, _, rfl⟩

/-- The reply check of a client whose `recv` of the reply delivers `bytes` (at most
9), once the socket is connected and the credential sent. -/
theorem enc_client_network_reply (env : ClientEnv) (key_buffer text_buffer : List Nat)
    (key_len text_len : Nat) (bytes : List Nat) (rest : List RecvItem)
    (hkl : strlen key_buffer = some key_len) (htl : strlen text_buffer = some text_len)
    (hsocket : env.socket_ok = true) (hconnect : env.connect_ok = true)
    (hsend : ¬ (send env.out 4).1 < 0)
    (hsock : env.sock = RecvItem.data bytes :: rest) (hlen : bytes.length ≤ 9) :
    enc_client_network env key_buffer text_buffer =
      if c_str bytes ≠ [101, 110, 99] then
        [ClientEvent.socket, ClientEvent.connect,
          ClientEvent.send [52, 51, 50, 49] (send env.out 4).1,
          ClientEvent.recv 9 bytes.length, ClientEvent.close, ClientEvent.exit 2]
      else
        ClientEvent.socket :: ClientEvent.connect
          :: ClientEvent.send [52, 51, 50, 49] (send env.out 4).1
          :: ClientEvent.recv 9 bytes.length
          :: client_frames rest (send env.out 4).2 key_buffer text_buffer key_len
              text_len := by
  unfold enc_client_network
  rw [hkl, htl, hsock, recv_data_le bytes rest 9 hlen]
  have hneg : ¬ ((bytes.length : Int) < 0) := by omega
  have hc : c_str (c_buf [101, 110, 99]) = [101, 110, 99] := by decide
  simp only [hsocket, hconnect, hsend, hneg, Int.toNat_ofNat, c_str_client_code bytes hlen,
    hc, Bool.not_true, Bool.false_eq_true, if_false]

/-- C13 (handshake reply check of the client), as the code has it. For every byte
sequence of 0 to 9 bytes that `enc_client` reads as the handshake reply, the client
goes on to send the key frame exactly when that sequence, cut at its first NUL byte if
it has one, is "enc"; for every other reply it sends no frame, closes and exits with
code 2. -/
theorem handshake_reply_check (env : ClientEnv) (key_buffer text_buffer : List Nat)
    (key_len text_len : Nat) (bytes : List Nat) (rest : List RecvItem)
    (hkl : strlen key_buffer = some key_len) (htl : strlen text_buffer = some text_len)
    (hsocket : env.socket_ok = true) (hconnect : env.connect_ok = true)
    (hsend : ¬ (send env.out 4).1 < 0)
    (hsock : env.sock = RecvItem.data bytes :: rest) (hlen : bytes.length ≤ 9) :
    (c_str bytes = [101, 110, 99] →
        ∃ w w2 tail, enc_client_network env key_buffer text_buffer
          = ClientEvent.socket :: ClientEvent.connect :: ClientEvent.send [52, 51, 50, 49] w
              :: ClientEvent.recv 9 bytes.length
              :: ClientEvent.send (be32 (key_len % 4294967296)) w2 :: tail)
      ∧ (c_str bytes ≠ [101, 110, 99] →
        ∃ w, enc_client_network env key_buffer text_buffer
          = [ClientEvent.socket, ClientEvent.connect, ClientEvent.send [52, 51, 50, 49] w,
              ClientEvent.recv 9 bytes.length, ClientEvent.close, ClientEvent.exit 2]) := by
  have h := enc_client_network_reply env key_buffer text_buffer key_len text_len bytes rest
    hkl htl hsocket hconnect hsend hsock hlen
  constructor
  · intro heq
    rw [if_neg (not_not.mpr heq)] at h
    obtain ⟨w2, tail, hf⟩ := client_frames_starts_with_send rest (send env.out 4).2
      key_buffer text_buffer key_len text_len
    exact ⟨_, w2, tail, by rw [h, hf]⟩
  · intro hne
    rw [if_pos hne] at h
    exact ⟨_, h⟩

/-- Witness of C13: the reply "reject" to a client holding the key "XYZ" and the
plaintext "HI". -/
theorem handshake_reply_check_witness :
    (c_str [114, 101, 106, 101, 99, 116] = [101, 110, 99] →
        ∃ w w2 tail, enc_client_network
            ⟨true, true, [RecvItem.data [114, 101, 106, 101, 99, 116]], []⟩
            [88, 89, 90, 0, 0] [72, 73, 0, 0]
          = ClientEvent.socket :: ClientEvent.connect :: ClientEvent.send [52, 51, 50, 49] w
              :: ClientEvent.recv 9 ([114, 101, 106, 101, 99, 116] : List Nat).length
              :: ClientEvent.send (be32 (3 % 4294967296)) w2 :: tail)
      ∧ (c_str [114, 101, 106, 101, 99, 116] ≠ [101, 110, 99] →
        ∃ w, enc_client_network
            ⟨true, true, [RecvItem.data [114, 101, 106, 101, 99, 116]], []⟩
            [88, 89, 90, 0, 0] [72, 73, 0, 0]
          = [ClientEvent.socket, ClientEvent.connect, ClientEvent.send [52, 51, 50, 49] w,
              ClientEvent.recv 9 ([114, 101, 106, 101, 99, 116] : List Nat).length,
              ClientEvent.close, ClientEvent.exit 2]) :=
  handshake_reply_check ⟨true, true, [RecvItem.data [114, 101, 106, 101, 99, 116]], []⟩
    [88, 89, 90, 0, 0] [72, 73, 0, 0] 3 2 [114, 101, 106, 101, 99, 116] [] (by decide)
    (by decide) rfl rfl (by decide) rfl (by decide)

/-- Counterexample to C13 as stated: the client reads the four bytes "enc\\0" as the
reply, which are "enc" followed by a further byte and not exactly "enc"; it goes on to
send the key frame and the payload frame, reads the result and exits with code 0. -/
theorem handshake_reply_check_counterexample :
    ([101, 110, 99, 0] : List Nat) ≠ [101, 110, 99]
      ∧ ([101, 110, 99, 0] : List Nat).length ≤ 9
      ∧ enc_client_main 4 ⟨some [88, 89, 90, 10], true, true, 4⟩
          ⟨some [72, 73, 10], true, true, 3⟩ 5000
          ⟨true, true, [RecvItem.data [101, 110, 99, 0], RecvItem.data [68, 70]], []⟩
        = [ClientEvent.socket, ClientEvent.connect, ClientEvent.send [52, 51, 50, 49] 4,
            ClientEvent.recv 9 4, ClientEvent.send [0, 0, 0, 3] 4,
            ClientEvent.send [88, 89, 90] 3, ClientEvent.send [0, 0, 0, 2] 4,
            ClientEvent.send [72, 73] 2, ClientEvent.recv 2 2, ClientEvent.print [68, 70],
            ClientEvent.close, ClientEvent.exit 0] := by
  decide

/-! ## Theorems on the key-length invariant -/

/-- The transform part of a session starts with the call of the transform. -/
theorem session_transform_starts_with_call (svc : Service) (env : Env)
    (out : List SendItem) (key msg : List Nat) (msg_len : Int) :
    ∃ post, session_transform svc env out key msg msg_len
      = Event.transform msg msg_len key :: post := by
  unfold session_transform
  cases svc.transform env.calloc_ok msg msg_len key with
  | null => exact ⟨_, rfl⟩
  | undefined => exact ⟨_, rfl⟩
  | ptr cipher =>
    simp only
    cases strlen cipher with
    | none => exact ⟨_, rfl⟩
    | some n => exact ⟨_, rfl⟩

/-- A session whose handshake is accepted and whose two frames arrive complete calls
the transform on the key and the payload received, whatever their lengths. -/
theorem server_session_reaches_transform (svc : Service) (env : Env) (K M : List Nat)
    (kchunks mchunks : List (List Nat)) (rest : List RecvItem)
    (hcode : c_str svc.permitted_code = c_str (c_buf svc.permitted_code))
    (hcl : svc.permitted_code.length ≤ 9)
    (hsock : env.sock = RecvItem.data svc.permitted_code :: RecvItem.data (be32 K.length)
      :: (kchunks.map RecvItem.data
        ++ RecvItem.data (be32 M.length) :: (mchunks.map RecvItem.data ++ rest)))
    (hkne : ∀ c ∈ kchunks, c ≠ []) (hk : kchunks.flatten = K)
    (hmne : ∀ c ∈ mchunks, c ≠ []) (hm : mchunks.flatten = M)
    (hintK : (K.length : Int) + 1 ≤ INT_MAX) (hintM : (M.length : Int) + 1 ≤ INT_MAX)
    (hokK : env.calloc_ok (K.length + 1) = true)
    (hokM : env.calloc_ok (M.length + 1) = true) :
    ∃ pre post, server_session svc env
      = pre ++ Event.transform (c_buf M) M.length (c_buf K) :: post := by
  have h := server_session_handshake svc env svc.permitted_code _ hsock hcl
  rw [if_pos hcode] at h
  obtain ⟨ev1, _, hkey⟩ := session_key_frame svc env (send env.out 3).2 K kchunks
    (RecvItem.data (be32 M.length) :: (mchunks.map RecvItem.data ++ rest)) hkne hk hintK hokK
  obtain ⟨ev2, _, hpay⟩ := session_payload_frame svc env (send env.out 3).2 (c_buf K) M
    mchunks rest hmne hm hintM hokM
  obtain ⟨post, htr⟩ := session_transform_starts_with_call svc env (send env.out 3).2
    (c_buf K) (c_buf M) M.length
  rw [hkey, hpay, htr] at h
  refine ⟨Event.recv 9 svc.permitted_code.length
    :: Event.send svc.accept_tag (send env.out 3).1 :: Event.recv 4 4 :: ev1
      ++ Event.recv 4 4 :: ev2, post, ?_⟩
  rw [h]
  simp

/-- C14 (key-length invariant), as the code has it. The invariant is enforced by the
requester only. A server session whose handshake is accepted calls `encrypt_msg`
(`decrypt_msg`) on every key frame and payload frame it fully receives, whatever their
lengths, so also for a key frame shorter than the payload frame; `enc_client` reaches
its network phase only with a key at least as long as the payload. -/
theorem key_length_enforced_by_requester (env : Env) (code K M : List Nat)
    (kchunks mchunks : List (List Nat)) (rest : List RecvItem)
    (hsock : env.sock = RecvItem.data code :: RecvItem.data (be32 K.length)
      :: (kchunks.map RecvItem.data
        ++ RecvItem.data (be32 M.length) :: (mchunks.map RecvItem.data ++ rest)))
    (hkne : ∀ c ∈ kchunks, c ≠ []) (hk : kchunks.flatten = K)
    (hmne : ∀ c ∈ mchunks, c ≠ []) (hm : mchunks.flatten = M)
    (hintK : (K.length : Int) + 1 ≤ INT_MAX) (hintM : (M.length : Int) + 1 ≤ INT_MAX)
    (hokK : env.calloc_ok (K.length + 1) = true)
    (hokM : env.calloc_ok (M.length + 1) = true) :
    (code = enc_service.permitted_code →
        ∃ pre post, enc_server_session env
          = pre ++ Event.transform (c_buf M) M.length (c_buf K) :: post)
      ∧ (code = dec_service.permitted_code →
        ∃ pre post, dec_server_session env
          = pre ++ Event.transform (c_buf M) M.length (c_buf K) :: post)
      ∧ (∀ argc key_file text_file port_arg key_buffer text_buffer p,
          enc_client_start argc key_file text_file port_arg
            = ClientStart.network key_buffer text_buffer p →
          ∃ key_len text_len, strlen key_buffer = some key_len
            ∧ strlen text_buffer = some text_len ∧ text_len ≤ key_len) := by
  refine ⟨?_, ?_, ?_⟩
  · intro hc
    subst hc
    exact server_session_reaches_transform enc_service env K M kchunks mchunks rest
      (by decide) (by decide) hsock hkne hk hmne hm hintK hintM hokK hokM
  · intro hc
    subst hc
    exact server_session_reaches_transform dec_service env K M kchunks mchunks rest
      (by decide) (by decide) hsock hkne hk hmne hm hintK hintM hokK hokM
  · intro argc key_file text_file port_arg key_buffer text_buffer p h
    unfold enc_client_start at h
    split at h
    · exact absurd h (by simp)
    · split at h
      · exact absurd h (by simp)
      · exact absurd h (by simp)
      · rename_i kb hkb
        split at h
        · exact absurd h (by simp)
        · rename_i kl hkl
          split at h
          · exact absurd h (by simp)
          · exact absurd h (by simp)
          · rename_i tb htb
            split at h
            · exact absurd h (by simp)
            · rename_i tl htl
              split at h
              · exact absurd h (by simp)
              · split at h
                · exact absurd h (by simp)
                · rename_i hlt _
                  simp only [ClientStart.network.injEq] at h
                  obtain ⟨h1, h2, _⟩ := h
                  subst h1 h2
                  exact ⟨kl, tl, hkl, htl, by omega⟩

/-- Witness of C14: the key frame "A" and the payload frame "HI" on the encryption
server. -/
theorem key_length_enforced_by_requester_witness :
    ([52, 51, 50, 49] = enc_service.permitted_code →
        ∃ pre post, enc_server_session
            ⟨[RecvItem.data [52, 51, 50, 49], RecvItem.data [0, 0, 0, 1], RecvItem.data [65],
                RecvItem.data [0, 0, 0, 2], RecvItem.data [72, 73]],
              [], fun _ => true, [0, 0, 0, 0], [0, 0, 0, 0]⟩
          = pre ++ Event.transform (c_buf [72, 73]) ([72, 73] : List Nat).length (c_buf [65])
              :: post)
      ∧ ([52, 51, 50, 49] = dec_service.permitted_code →
        ∃ pre post, dec_server_session
            ⟨[RecvItem.data [52, 51, 50, 49], RecvItem.data [0, 0, 0, 1], RecvItem.data [65],
                RecvItem.data [0, 0, 0, 2], RecvItem.data [72, 73]],
              [], fun _ => true, [0, 0, 0, 0], [0, 0, 0, 0]⟩
          = pre ++ Event.transform (c_buf [72, 73]) ([72, 73] : List Nat).length (c_buf [65])
              :: post)
      ∧ (∀ argc key_file text_file port_arg key_buffer text_buffer p,
          enc_client_start argc key_file text_file port_arg
            = ClientStart.network key_buffer text_buffer p →
          ∃ key_len text_len, strlen key_buffer = some key_len
            ∧ strlen text_buffer = some text_len ∧ text_len ≤ key_len) :=
  key_length_enforced_by_requester
    ⟨[RecvItem.data [52, 51, 50, 49], RecvItem.data [0, 0, 0, 1], RecvItem.data [65],
        RecvItem.data [0, 0, 0, 2], RecvItem.data [72, 73]],
      [], fun _ => true, [0, 0, 0, 0], [0, 0, 0, 0]⟩
    [52, 51, 50, 49] [65] [72, 73] [[65]] [[72, 73]] [] rfl (by decide) rfl (by decide) rfl
    (by decide) (by decide) rfl rfl

/-- Counterexample to C14 as stated: the key frame "A" (length 1) and the payload
frame "HI" (length 2) reach the encryption server; the session calls `encrypt_msg`
with the one-symbol key and answers with two bytes. -/
theorem key_length_invariant_counterexample :
    ([65] : List Nat).length < ([72, 73] : List Nat).length
      ∧ enc_server_session
          ⟨[RecvItem.data [52, 51, 50, 49], RecvItem.data [0, 0, 0, 1], RecvItem.data [65],
              RecvItem.data [0, 0, 0, 2], RecvItem.data [72, 73]],
            [], fun _ => true, [0, 0, 0, 0], [0, 0, 0, 0]⟩
        = [Event.recv 9 4, Event.send [101, 110, 99] 3, Event.recv 4 4, Event.recv 1 1,
            Event.recv 4 4, Event.recv 2 2, Event.transform [72, 73, 0] 2 [65, 0],
            Event.send [72, 8] 2, Event.exit 0]
      ∧ calls_transform (enc_server_session
          ⟨[RecvItem.data [52, 51, 50, 49], RecvItem.data [0, 0, 0, 1], RecvItem.data [65],
              RecvItem.data [0, 0, 0, 2], RecvItem.data [72, 73]],
            [], fun _ => true, [0, 0, 0, 0], [0, 0, 0, 0]⟩) = true := by
  decide

/-! ## Further theorems on the cipher engine -/

/-- On two symbols of Alphabet-27: the key symbol is recovered from the plaintext
and the ciphertext symbol, and so is the plaintext symbol from the ciphertext and
the key symbol. -/
theorem pad_facts : ∀ m ∈ 32 :: List.range' 65 26, ∀ c ∈ 32 :: List.range' 65 26,
    alphabet27 (decrypt_byte c m) ∧ encrypt_byte m (decrypt_byte c m) = c
      ∧ encrypt_byte (decrypt_byte c m) m = c
      ∧ decrypt_byte (encrypt_byte m c) m = c := by
  decide

/-- What `encrypt_msg` returns on a one-symbol message and a one-symbol key. -/
theorem encrypt_msg_single (calloc_ok : Nat → Bool) (hok : calloc_ok 2 = true) (m k : Nat)
    (hm : alphabet27 m) :
    encrypt_msg calloc_ok (c_buf [m]) 1 (c_buf [k]) = Ret.ptr (c_buf [encrypt_byte m k]) := by
  have h := encrypt_msg_alphabet27 calloc_ok [m] [k]
    (fun b hb => by simp only [List.mem_singleton] at hb; rw [hb]; exact hm) (le_refl _)
    (by simp [INT_MAX]) hok
  simpa using h

/-- C16 (one-time-pad bijection). For every plaintext symbol and every ciphertext
symbol `c` of Alphabet-27 there is exactly one key symbol `k` of Alphabet-27 with
`encrypt_msg("a", 1, "k") = "c"`; likewise for every key symbol and every ciphertext
symbol there is exactly one plaintext symbol `m` with `encrypt_msg("m", 1, "a") = "c"`.
So each of the maps `k -> encode([a],[k])` and `m -> encode([m],[a])` is a bijection
of Alphabet-27. -/
theorem one_time_pad_bijection (calloc_ok : Nat → Bool) (a c : Nat)
    (hok : calloc_ok 2 = true) (ha : alphabet27 a) (hc : alphabet27 c) :
    (∃! k, alphabet27 k
        ∧ encrypt_msg calloc_ok (c_buf [a]) 1 (c_buf [k]) = Ret.ptr (c_buf [c]))
      ∧ (∃! m, alphabet27 m
        ∧ encrypt_msg calloc_ok (c_buf [m]) 1 (c_buf [a]) = Ret.ptr (c_buf [c])) := by
  have hpad := pad_facts a ((alphabet27_iff_mem a).1 ha) c ((alphabet27_iff_mem c).1 hc)
  have hinj : ∀ x : Nat, Ret.ptr (c_buf [x]) = Ret.ptr (c_buf [c]) → x = c := by
    intro x hx
    simpa [c_buf] using hx
  constructor
  · refine ⟨decrypt_byte c a, ⟨hpad.1, ?_⟩, ?_⟩
    · rw [encrypt_msg_single calloc_ok hok a _ ha, hpad.2.1]
    · rintro k ⟨hk, hek⟩
      rw [encrypt_msg_single calloc_ok hok a k ha] at hek
      have hkc := hinj _ hek
      have := (pad_facts a ((alphabet27_iff_mem a).1 ha) k ((alphabet27_iff_mem k).1 hk)).2.2.2
      rw [hkc] at this
      exact this.symm
  · refine ⟨decrypt_byte c a, ⟨hpad.1, ?_⟩, ?_⟩
    · rw [encrypt_msg_single calloc_ok hok _ a hpad.1, hpad.2.2.1]
    · rintro m ⟨hm, hem⟩
      rw [encrypt_msg_single calloc_ok hok m a hm] at hem
      have hmc := hinj _ hem
      have := decrypt_encrypt_byte m a hm ha
      rw [hmc] at this
      exact this.symm

/-- Witness of C16: the plaintext (respectively key) symbol "H" and the ciphertext
symbol " ". -/
theorem one_time_pad_bijection_witness :
    (∃! k, alphabet27 k
        ∧ encrypt_msg (fun _ => true) (c_buf [72]) 1 (c_buf [k]) = Ret.ptr (c_buf [32]))
      ∧ (∃! m, alphabet27 m
        ∧ encrypt_msg (fun _ => true) (c_buf [m]) 1 (c_buf [72]) = Ret.ptr (c_buf [32])) :=
  one_time_pad_bijection (fun _ => true) 72 32 rfl (by decide) (by decide)

/-! ## Theorems on the array accesses of the transform loops -/

/-- The loop with its accesses computes what `encrypt_loop` computes. -/
theorem loop_accesses_encrypt (message key_seq : List Nat) :
    ∀ (fuel i : Nat) (out : List Nat),
      (loop_accesses encrypt_byte message key_seq fuel i out).2
        = encrypt_loop message key_seq fuel i out := by
  intro fuel
  induction fuel with
  | zero => intro i out; rfl
  | succ f ih =>
    intro i out
    rw [loop_accesses, encrypt_loop]
    cases hm : message[i]? with
    | none => rfl
    | some m =>
      by_cases hz : m = 0
      · simp [hz]
      · cases hk : key_seq[i]? with
        | none => simp [hz]
        | some k =>
          by_cases ho : i < out.length
          · simp only [hz, ho, if_false, if_true]
            exact ih (i + 1) _
          · simp [hz, ho]

/-- The loop with its accesses computes what `decrypt_loop` computes. -/
theorem loop_accesses_decrypt (cipher key_seq : List Nat) :
    ∀ (fuel i : Nat) (out : List Nat),
      (loop_accesses decrypt_byte cipher key_seq fuel i out).2
        = decrypt_loop cipher key_seq fuel i out := by
  intro fuel
  induction fuel with
  | zero => intro i out; rfl
  | succ f ih =>
    intro i out
    rw [loop_accesses, decrypt_loop]
    cases hm : cipher[i]? with
    | none => rfl
    | some m =>
      by_cases hz : m = 0
      · simp [hz]
      · cases hk : key_seq[i]? with
        | none => simp [hz]
        | some k =>
          by_cases ho : i < out.length
          · simp only [hz, ho, if_false, if_true]
            exact ih (i + 1) _
          · simp [hz, ho]

/-- The accesses of the loop on a NUL-free message `M` held with its terminator, a
key buffer at least as long as `M` and an output buffer longer than `M`: from index
`i` on, one iteration per index below `len(M)`, then the test that reads the
terminator. -/
theorem loop_accesses_log (byte : Nat → Nat → Nat) (M key_seq : List Nat)
    (hM : ∀ b ∈ M, b ≠ 0) (hK : M.length ≤ key_seq.length) :
    ∀ (d i fuel : Nat) (out : List Nat), i + d = M.length → M.length < out.length →
      d < fuel →
      (loop_accesses byte (c_buf M) key_seq fuel i out).1
        = (List.range' i d).flatMap iteration_accesses ++ [Access.message M.length] := by
  intro d
  induction d with
  | zero =>
    intro i fuel out hi hout hfuel
    obtain ⟨f, rfl⟩ : ∃ f, fuel = f + 1 := ⟨fuel - 1, by omega⟩
    have hi' : i = M.length := by omega
    subst hi'
    simp [loop_accesses, getElem?_c_buf_length]
  | succ d ih =>
    intro i fuel out hi hout hfuel
    obtain ⟨f, rfl⟩ : ∃ f, fuel = f + 1 := ⟨fuel - 1, by omega⟩
    have hiM : i < M.length := by omega
    have hiK : i < key_seq.length := by omega
    have hne : M[i] ≠ 0 := hM _ (List.getElem_mem hiM)
    have hio : i < out.length := by omega
    rw [loop_accesses, getElem?_c_buf_lt M i hiM]
    simp only [hne, if_false, List.getElem?_eq_getElem hiK, hio, if_true]
    rw [ih (i + 1) f _ (by omega) (by simpa using hout) (by omega)]
    simp [List.range'_succ, iteration_accesses]

theorem iteration_accesses_below (n : Nat) :
    ∀ a ∈ (List.range n).flatMap iteration_accesses, Access.below n a = true := by
  intro a ha
  simp only [List.mem_flatMap, List.mem_range, iteration_accesses] at ha
  obtain ⟨i, hi, ha⟩ := ha
  simp only [List.mem_cons, List.mem_singleton, List.not_mem_nil, or_false] at ha
  rcases ha with rfl | rfl | rfl | rfl <;> simp [Access.below, hi]

/-- C17 (within-bounds, terminating transform), as the code has it. For every NUL-free
message of length `n` held in a buffer with a NUL byte at index `n`, every key buffer
of length at least `n` and the `(n+1)`-byte output buffer, the loop of `encrypt_msg`
(and of `decrypt_msg`) is left normally after exactly `n` iterations; iteration `i`
accesses `message[i]`, `key_seq[i]` and `output[i]`, all with `i < n`, and the only
other access is the loop test that ends the loop, which reads the terminator
`message[n]` inside the message buffer. -/
theorem transform_loop_accesses (M key_seq : List Nat) (hM : ∀ b ∈ M, b ≠ 0)
    (hK : M.length ≤ key_seq.length) :
    (loop_accesses encrypt_byte (c_buf M) key_seq ((c_buf M).length + 1) 0
          (List.replicate (M.length + 1) 0)).1
        = (List.range M.length).flatMap iteration_accesses ++ [Access.message M.length]
      ∧ (loop_accesses encrypt_byte (c_buf M) key_seq ((c_buf M).length + 1) 0
          (List.replicate (M.length + 1) 0)).2
        = encrypt_loop (c_buf M) key_seq ((c_buf M).length + 1) 0
            (List.replicate (M.length + 1) 0)
      ∧ (encrypt_loop (c_buf M) key_seq ((c_buf M).length + 1) 0
          (List.replicate (M.length + 1) 0)).isSome = true
      ∧ (loop_accesses decrypt_byte (c_buf M) key_seq ((c_buf M).length + 1) 0
          (List.replicate (M.length + 1) 0)).1
        = (List.range M.length).flatMap iteration_accesses ++ [Access.message M.length]
      ∧ (loop_accesses decrypt_byte (c_buf M) key_seq ((c_buf M).length + 1) 0
          (List.replicate (M.length + 1) 0)).2
        = decrypt_loop (c_buf M) key_seq ((c_buf M).length + 1) 0
            (List.replicate (M.length + 1) 0)
      ∧ (decrypt_loop (c_buf M) key_seq ((c_buf M).length + 1) 0
          (List.replicate (M.length + 1) 0)).isSome = true
      ∧ (∀ a ∈ (List.range M.length).flatMap iteration_accesses,
          Access.below M.length a = true)
      ∧ M.length < (c_buf M).length := by
  have hfuel : M.length < (c_buf M).length + 1 := by
    simp only [c_buf, List.length_append, List.length_singleton]; omega
  have hlog : ∀ byte : Nat → Nat → Nat,
      (loop_accesses byte (c_buf M) key_seq ((c_buf M).length + 1) 0
          (List.replicate (M.length + 1) 0)).1
        = (List.range M.length).flatMap iteration_accesses ++ [Access.message M.length] := by
    intro byte
    rw [loop_accesses_log byte M key_seq hM hK M.length 0 _ _ (by simp) (by simp) hfuel,
      List.range_eq_range']
  refine ⟨hlog encrypt_byte, loop_accesses_encrypt _ _ _ _ _, ?_, hlog decrypt_byte,
    loop_accesses_decrypt _ _ _ _ _, ?_, iteration_accesses_below M.length, ?_⟩
  · rw [encrypt_loop_eq M key_seq hM hK M.length 0 _ _ (by simp) (by simp) hfuel]
    rfl
  · rw [decrypt_loop_eq M key_seq hM hK M.length 0 _ _ (by simp) (by simp) hfuel]
    rfl
  · simp [c_buf]

/-- Witness of C17: the message "HI" with the key buffer of "XYZ". -/
theorem transform_loop_accesses_witness :
    (loop_accesses encrypt_byte (c_buf [72, 73]) (c_buf [88, 89, 90])
          ((c_buf [72, 73]).length + 1) 0
          (List.replicate (([72, 73] : List Nat).length + 1) 0)).1
        = (List.range ([72, 73] : List Nat).length).flatMap iteration_accesses
            ++ [Access.message ([72, 73] : List Nat).length]
      ∧ (loop_accesses encrypt_byte (c_buf [72, 73]) (c_buf [88, 89, 90])
          ((c_buf [72, 73]).length + 1) 0
          (List.replicate (([72, 73] : List Nat).length + 1) 0)).2
        = encrypt_loop (c_buf [72, 73]) (c_buf [88, 89, 90]) ((c_buf [72, 73]).length + 1) 0
            (List.replicate (([72, 73] : List Nat).length + 1) 0)
      ∧ (encrypt_loop (c_buf [72, 73]) (c_buf [88, 89, 90]) ((c_buf [72, 73]).length + 1) 0
          (List.replicate (([72, 73] : List Nat).length + 1) 0)).isSome = true
      ∧ (loop_accesses decrypt_byte (c_buf [72, 73]) (c_buf [88, 89, 90])
          ((c_buf [72, 73]).length + 1) 0
          (List.replicate (([72, 73] : List Nat).length + 1) 0)).1
        = (List.range ([72, 73] : List Nat).length).flatMap iteration_accesses
            ++ [Access.message ([72, 73] : List Nat).length]
      ∧ (loop_accesses decrypt_byte (c_buf [72, 73]) (c_buf [88, 89, 90])
          ((c_buf [72, 73]).length + 1) 0
          (List.replicate (([72, 73] : List Nat).length + 1) 0)).2
        = decrypt_loop (c_buf [72, 73]) (c_buf [88, 89, 90]) ((c_buf [72, 73]).length + 1) 0
            (List.replicate (([72, 73] : List Nat).length + 1) 0)
      ∧ (decrypt_loop (c_buf [72, 73]) (c_buf [88, 89, 90]) ((c_buf [72, 73]).length + 1) 0
          (List.replicate (([72, 73] : List Nat).length + 1) 0)).isSome = true
      ∧ (∀ a ∈ (List.range ([72, 73] : List Nat).length).flatMap iteration_accesses,
          Access.below ([72, 73] : List Nat).length a = true)
      ∧ ([72, 73] : List Nat).length < (c_buf [72, 73]).length :=
  transform_loop_accesses [72, 73] (c_buf [88, 89, 90]) (by decide) (by decide)

/-- Counterexample to C17 as stated: on the message "A" (`n = 1`) with the key "B",
the loop of `encrypt_msg` performs, after its single iteration, the access `message[1]`
of the loop test, whose index is not below `n`. -/
theorem transform_loop_accesses_counterexample :
    (loop_accesses encrypt_byte (c_buf [65]) (c_buf [66]) ((c_buf [65]).length + 1) 0
        (List.replicate (([65] : List Nat).length + 1) 0)).1
      = [Access.message 0, Access.message 0, Access.key_seq 0, Access.output 0,
          Access.message 1]
      ∧ Access.below ([65] : List Nat).length (Access.message 1) = false := by
  decide

/-! ## Theorems on whitespace -/

/-- The 32 bytes `parse_valid_file` admits. -/
theorem admitted_iff_mem (b : Nat) :
    admitted b ↔ b ∈ 9 :: 10 :: 11 :: 12 :: 13 :: 32 :: List.range' 65 26 := by
  simp only [admitted, isupper, isspace, char_val, decide_eq_true_eq, List.mem_cons,
    List.mem_range']
  constructor
  · rintro ⟨h256, h⟩
    by_cases hb : b < 128
    · simp only [hb, if_true] at h
      by_cases h65 : 65 ≤ b
      · have : b ≤ 90 := by omega
        exact Or.inr (Or.inr (Or.inr (Or.inr (Or.inr (Or.inr ⟨b - 65, by omega, by omega⟩)))))
      · omega
    · simp only [hb, if_false] at h
      omega
  · intro h
    have hb : b < 128 := by
      rcases h with h | h | h | h | h | h | ⟨i, h1, h2⟩ <;> omega
    simp only [hb, if_true]
    rcases h with h | h | h | h | h | h | ⟨i, h1, h2⟩ <;> omega

/-- What one iteration of the loops does on two admitted bytes: the ciphertext byte is
in Alphabet-27 and decrypts to the plaintext byte with whitespace turned into the
space. -/
theorem fold_facts : ∀ m ∈ 9 :: 10 :: 11 :: 12 :: 13 :: 32 :: List.range' 65 26,
    ∀ k ∈ 9 :: 10 :: 11 :: 12 :: 13 :: 32 :: List.range' 65 26,
    alphabet27 (encrypt_byte m k)
      ∧ decrypt_byte (encrypt_byte m k) k = (if isspace (char_val m) then 32 else m) := by
  decide

theorem admitted_ne_zero (b : Nat) (h : admitted b) : b ≠ 0 := by
  intro hb
  subst hb
  exact absurd h (by decide)

theorem zipWith_encrypt_admitted :
    ∀ (M K : List Nat), (∀ b ∈ M, admitted b) → (∀ b ∈ K, admitted b) →
      ∀ c ∈ List.zipWith encrypt_byte M K, alphabet27 c
  | [], _, _, _ => by simp
  | _ :: _, [], _, _ => by simp
  | m :: M, k :: K, hM, hK => by
    intro c hc
    simp only [List.zipWith_cons_cons, List.mem_cons] at hc
    rcases hc with rfl | hc
    · exact (fold_facts m ((admitted_iff_mem m).1 (hM m (by simp))) k
        ((admitted_iff_mem k).1 (hK k (by simp)))).1
    · exact zipWith_encrypt_admitted M K (fun b hb => hM b (by simp [hb]))
        (fun b hb => hK b (by simp [hb])) c hc

theorem zipWith_decrypt_encrypt_fold :
    ∀ (M K : List Nat), (∀ b ∈ M, admitted b) → (∀ b ∈ K, admitted b) →
      M.length ≤ K.length →
      List.zipWith decrypt_byte (List.zipWith encrypt_byte M K) K = fold_whitespace M
  | [], _, _, _, _ => by simp [fold_whitespace]
  | _ :: _, [], _, _, h => by simp at h
  | m :: M, k :: K, hM, hK, h => by
    have h' : M.length ≤ K.length := by simpa using h
    have ih := zipWith_decrypt_encrypt_fold M K (fun b hb => hM b (by simp [hb]))
      (fun b hb => hK b (by simp [hb])) h'
    have hb := (fold_facts m ((admitted_iff_mem m).1 (hM m (by simp))) k
      ((admitted_iff_mem k).1 (hK k (by simp)))).2
    simp only [List.zipWith_cons_cons, fold_whitespace, List.map_cons] at ih ⊢
    rw [hb, ih]

theorem fold_whitespace_eq_self :
    ∀ (M : List Nat),
      fold_whitespace M = M ↔ ∀ b ∈ M, isspace (char_val b) = true → b = 32
  | [] => by simp [fold_whitespace]
  | m :: M => by
    have ih := fold_whitespace_eq_self M
    simp only [fold_whitespace, List.map_cons, List.cons.injEq, List.mem_cons,
      forall_eq_or_imp] at ih ⊢
    rw [ih]
    constructor
    · rintro ⟨h1, h2⟩
      refine ⟨fun hs => ?_, h2⟩
      rw [if_pos hs] at h1
      exact h1.symm
    · rintro ⟨h1, h2⟩
      refine ⟨?_, h2⟩
      by_cases hs : isspace (char_val m) = true
      · rw [if_pos hs, h1 hs]
      · rw [if_neg hs]

/-- C18 (whitespace is folded to space). For every message `M` and key `K` whose
characters are each an uppercase letter or a whitespace character of the C locale,
with `len(K) ≥ len(M)`, `encrypt_msg(M, len(M), K)` returns a buffer and `decrypt_msg`
of that buffer with `len(M)` and `K` returns `M` with every whitespace character
replaced by the space; that is `M` itself exactly when `M` has no whitespace other than
the space. -/
theorem whitespace_folded_to_space (calloc_ok : Nat → Bool) (M K : List Nat)
    (hM : ∀ b ∈ M, admitted b) (hK : ∀ b ∈ K, admitted b)
    (hlen : M.length ≤ K.length) (hint : (M.length : Int) + 1 ≤ INT_MAX)
    (hok : calloc_ok (M.length + 1) = true) :
    (∃ cipher, encrypt_msg calloc_ok (c_buf M) M.length (c_buf K) = Ret.ptr cipher
        ∧ decrypt_msg calloc_ok cipher M.length (c_buf K)
          = Ret.ptr (c_buf (fold_whitespace M)))
      ∧ (fold_whitespace M = M ↔ ∀ b ∈ M, isspace (char_val b) = true → b = 32) := by
  have hKb : M.length ≤ (c_buf K).length := by
    simp only [c_buf, List.length_append, List.length_singleton]; omega
  have hl : (List.zipWith encrypt_byte M K).length = M.length := by
    simp [List.length_zipWith, hlen]
  have henc : encrypt_msg calloc_ok (c_buf M) M.length (c_buf K)
      = Ret.ptr (c_buf (List.zipWith encrypt_byte M K)) := by
    rw [encrypt_msg_eq calloc_ok M (c_buf K) (fun b hb => admitted_ne_zero b (hM b hb)) hKb
      hint hok, zipWith_c_buf encrypt_byte M K hlen]
  have hdec := decrypt_msg_eq calloc_ok (List.zipWith encrypt_byte M K) (c_buf K)
    (fun b hb => alphabet27_ne_zero b (zipWith_encrypt_admitted M K hM hK b hb))
    (by rw [hl]; exact hKb) (by rw [hl]; exact hint) (by rw [hl]; exact hok)
  rw [hl, zipWith_c_buf decrypt_byte _ K (by rw [hl]; exact hlen),
    zipWith_decrypt_encrypt_fold M K hM hK hlen] at hdec
  exact ⟨⟨_, henc, hdec⟩, fold_whitespace_eq_self M⟩

/-- Witness of C18: the message "A\\tB" with the key "X\\rYZ". -/
theorem whitespace_folded_to_space_witness :
    (∃ cipher, encrypt_msg (fun _ => true) (c_buf [65, 9, 66]) ([65, 9, 66] : List Nat).length
          (c_buf [88, 13, 89, 90]) = Ret.ptr cipher
        ∧ decrypt_msg (fun _ => true) cipher ([65, 9, 66] : List Nat).length
            (c_buf [88, 13, 89, 90])
          = Ret.ptr (c_buf (fold_whitespace [65, 9, 66])))
      ∧ (fold_whitespace [65, 9, 66] = [65, 9, 66]
        ↔ ∀ b ∈ ([65, 9, 66] : List Nat), isspace (char_val b) = true → b = 32) :=
  whitespace_folded_to_space (fun _ => true) [65, 9, 66] [88, 13, 89, 90] (by decide)
    (by decide) (by decide) (by decide) rfl

end OtpCipher
